import Mathlib

/-!
# Verification of the markdown heading segmenter

Shallow embedding of `src/services/heading_segment.py` (class `HeadingSegmenter`).
The Markdown tokenizer (`markdown_it`) is an external collaborator; following the
spec's interface, the engine is modelled from the token list and the source-line
array it consumes.  Text is manipulated as `List Char` (Python `str` is a
character sequence; `len`, slicing and `find` are index-based), and the
per-instance mutable state `current_id` is threaded explicitly: every emitting
function takes the current id and returns the emitted chunks together with the
next id.  Loops that advance an index by computed jumps take an explicit fuel
argument; callers pass a fuel that provably dominates the number of iterations,
so the embedding is total and executable.
-/

namespace HeadingSegmenter

/-- One inline child node of an `inline` token (the code only reads `type`,
`content` and the `src` attribute of children). -/
structure InlineChild where
  ctype : String
  content : String
  attrs : List (String × String)
deriving DecidableEq

/-- One token of the external tokenizer: a type tag, the heading tag (`h1`..),
its own content, an optional `(start_line, end_line)` source mapping and the
inline children.  A `None`/absent children list is modelled as `[]` (the code
only tests truthiness). -/
structure Token where
  ttype : String
  tag : String
  content : String
  tmap : Option (Nat × Nat)
  children : List InlineChild
deriving DecidableEq

/-- The output record (dataclass `Chunk`); `meta` is the ordered key/value list
of the Python dict (`url` before `alt` for images). -/
structure Chunk where
  id : Nat
  pids : List Nat
  level : Nat
  content : String
  ctype : String
  headers : List String
  meta : List (String × String)
deriving DecidableEq

/-- Engine configuration (constructor arguments of `HeadingSegmenter`). -/
structure Config where
  max_segment_length : Nat
  heading_level_limit : Nat
deriving DecidableEq

/-- Chunk type constants (class `ChunkType`). -/
def ChunkTypeTEXT : String := "text"

def ChunkTypeIMAGE : String := "image"

def ChunkTypeTABLE : String := "table"

def ChunkTypeCODE : String := "code"

def ChunkTypeHEADER : String := "header"

def ChunkTypeHTML_IMAGE : String := "html_image"

def ChunkTypeHTML_TABLE : String := "html_table"

def ChunkTypeHTML_CODE : String := "html_code"

/-! ## Python string semantics -/

/-- The whitespace characters removed by Python `str.strip()` (ASCII range;
the inputs of this development contain no exotic Unicode whitespace). -/
def isStripChar (c : Char) : Bool :=
  c == ' ' || c == '\t' || c == '\n' || c == '\r' || c == Char.ofNat 11 || c == Char.ofNat 12

/-- Python `s.strip()` on a character list. -/
def pyStrip (s : List Char) : List Char :=
  ((((s.dropWhile isStripChar).reverse).dropWhile isStripChar)).reverse

/-- Lowest index `i ≥ 0` in `s` where `pat` occurs (auxiliary for `find`). -/
def findSubAux (pat : List Char) : List Char → Nat → Option Nat
  | [], i => if pat = [] then some i else none
  | c :: rest, i =>
    if pat.isPrefixOf (c :: rest) then some i else findSubAux pat rest (i + 1)

/-- Python `s.find(pat, start)`: `none` models the `-1` result. -/
def pyFind (s pat : List Char) (start : Nat) : Option Nat :=
  if s.length < start then none
  else match findSubAux pat (s.drop start) 0 with
    | none => none
    | some k => some (start + k)

/-- Auxiliary for `rfind`: the largest occurrence of `pat` that ends at or
before `bound`, scanning `s` with `i` the index of its head. -/
def rfindAux (pat : List Char) : List Char → Nat → Nat → Option Nat → Option Nat
  | [], _, _, best => best
  | c :: rest, i, bound, best =>
    let best' := if i + pat.length ≤ bound ∧ pat.isPrefixOf (c :: rest) then some i else best
    rfindAux pat rest (i + 1) bound best'

/-- Python `s.rfind(pat, 0, bound)`. -/
def pyRfind (s pat : List Char) (bound : Nat) : Option Nat :=
  rfindAux pat s 0 bound none

/-- Python slice `s[a:b]`. -/
def pySlice (s : List Char) (a b : Nat) : List Char :=
  (s.drop a).take (b - a)

/-- Python `str.splitlines(keepends=True)` for `\n`, `\r` and `\r\n`
terminators (the terminators that occur in this code's inputs). -/
def splitlinesKE : List Char → List Char → List (List Char)
  | [], cur => if cur = [] then [] else [cur.reverse]
  | '\r' :: '\n' :: rest2, cur => (cur.reverse ++ ['\r', '\n']) :: splitlinesKE rest2 []
  | c :: rest, cur =>
    if c = '\n' then (cur.reverse ++ ['\n']) :: splitlinesKE rest []
    else if c = '\r' then (cur.reverse ++ ['\r']) :: splitlinesKE rest []
    else splitlinesKE rest (c :: cur)

/-- The sentence-terminal delimiters of `sentence_split_pattern`
(`[。？！.?!]`). -/
def isSentenceDelim (c : Char) : Bool :=
  c == '。' || c == '？' || c == '！' || c == '.' || c == '?' || c == '!'

/-- Python `re.split(r"([。？！.?!])", text)`: the pieces between delimiters
interleaved with the single-character delimiters themselves. -/
def sentenceSplitAux : List Char → List Char → List (List Char)
  | [], cur => [cur.reverse]
  | c :: rest, cur =>
    if isSentenceDelim c then cur.reverse :: [c] :: sentenceSplitAux rest []
    else sentenceSplitAux rest (c :: cur)

def sentenceSplitParts (text : List Char) : List (List Char) :=
  sentenceSplitAux text []

/-- The loop shape `part = parts[i]; sep = parts[i+1] if i+1 < len else ""`
with `i` stepping by 2. -/
def pairUp : List (List Char) → List (List Char × List Char)
  | [] => []
  | [p] => [(p, [])]
  | p :: sep :: rest => (p, sep) :: pairUp rest

/-- `attrs.get("src", "")` with `None` attrs modelled as `[]`. -/
def attrsGet (attrs : List (String × String)) (key : String) : String :=
  match attrs.find? (fun kv => kv.1 = key) with
  | some kv => kv.2
  | none => ""

/-! ## The fallback markdown-image regex `!\[([^\]]*)\]\((.*)\)`

`[^\]]*` takes the characters up to the first `]` (the class cannot cross it);
`\(` must follow immediately; the greedy `(.*)` cannot cross a newline and
backtracks to the last `)` on the same line.  A failed attempt advances the
start position by one character; `finditer` resumes after each match. -/

/-- Index of the last occurrence of `c` in `l`. -/
def lastIdxOf (c : Char) (l : List Char) : Option Nat :=
  (l.foldl (fun (acc : Nat × Option Nat) d =>
    (acc.1 + 1, if d = c then some acc.1 else acc.2)) (0, none)).2

/-- Try to match the image pattern starting exactly at index `i` of `s`;
returns `(end_index, alt, url)` on success. -/
def matchImageAt (s : List Char) (i : Nat) : Option (Nat × List Char × List Char) :=
  match s.drop i with
  | '!' :: '[' :: rest =>
    let altCs := rest.takeWhile (fun c => c ≠ ']')
    (match rest.drop altCs.length with
     | ']' :: '(' :: tail =>
       let line := tail.takeWhile (fun c => c ≠ '\n')
       (match lastIdxOf ')' line with
        | none => none
        | some k => some (i + altCs.length + k + 5, altCs, line.take k))
     | _ => none)
  | _ => none

/-- `finditer` of the fallback pattern: the non-overlapping matches
`(start, end, alt, url)` in order, scanning from position `i`. -/
def imageFinditer (s : List Char) : Nat → Nat → List (Nat × Nat × List Char × List Char)
  | 0, _ => []
  | fuel + 1, i =>
    match matchImageAt s i with
    | some (e, alt, url) => (i, e, alt, url) :: imageFinditer s fuel e
    | none => if i < s.length then imageFinditer s fuel (i + 1) else []

/-- `fallback_md_image_pattern.search(s)` as a boolean. -/
def imageSearch (s : List Char) : Bool :=
  (imageFinditer s (s.length + 1) 0).isEmpty = false

/-! ## The HTML block regexes

`html_img_pattern = <img\s+[^>]*?src=["'](.*?)["'][^>]*?>` (IGNORECASE),
`html_table_pattern = <table[\s\S]*?</table>`, `html_pre_pattern` likewise.
Only `search` (and `group(1)` of the img pattern) are used by the code. -/

/-- Case-insensitive character comparison (for IGNORECASE literals). -/
def charEqCI (a b : Char) : Bool := a.toLower == b.toLower

def isPrefixCI : List Char → List Char → Bool
  | [], _ => true
  | _ :: _, [] => false
  | p :: ps, c :: cs => charEqCI p c && isPrefixCI ps cs

/-- Lowest index at or after `i` where `pat` occurs case-insensitively. -/
def findCIAux (pat : List Char) : List Char → Nat → Option Nat
  | [], i => if pat = [] then some i else none
  | c :: rest, i =>
    if isPrefixCI pat (c :: rest) then some i else findCIAux pat rest (i + 1)

def pyFindCI (s pat : List Char) (start : Nat) : Option Nat :=
  if s.length < start then none
  else match findCIAux pat (s.drop start) 0 with
    | none => none
    | some k => some (start + k)

/-- `html_table_pattern.search`: a `<table` occurrence with a `</table>`
occurrence starting at least 6 characters later. -/
def htmlTableSearch (s : List Char) : Bool :=
  match pyFindCI s "<table".toList 0 with
  | none => false
  | some i => (pyFindCI s "</table>".toList (i + 6)).isSome

/-- `html_pre_pattern.search`. -/
def htmlPreSearch (s : List Char) : Bool :=
  match pyFindCI s "<pre".toList 0 with
  | none => false
  | some i => (pyFindCI s "</pre>".toList (i + 4)).isSome

/-- Python regex `\s` characters. -/
def isRegexWS (c : Char) : Bool :=
  c == ' ' || c == '\t' || c == '\n' || c == '\r' || c == Char.ofNat 11 || c == Char.ofNat 12

/-- Try an `<img ... src="URL" ... >` match starting at index `i`: after
`<img` and at least one whitespace character, the lazy `[^>]*?` finds the
earliest `src=` + quote with no `>` in between, the lazy `(.*?)` stops at the
first quote on the same line, and a `>` must follow the closing quote. -/
def htmlImgMatchAt (s : List Char) (i : Nat) : Option (List Char) :=
  if isPrefixCI "<img".toList (s.drop i) then
    match s.drop (i + 4) with
    | c :: rest =>
      if isRegexWS c then
        let before := rest.takeWhile (fun d => d ≠ '>')
        (match pyFindCI before "src=".toList 0 with
         | none => none
         | some k =>
           (match rest.drop (k + 4) with
            | q :: tail =>
              if q = '"' ∨ q = Char.ofNat 39 then
                let url := tail.takeWhile (fun d => ¬ (d = '"' ∨ d = Char.ofNat 39 ∨ d = '\n'))
                (match tail.drop url.length with
                 | q2 :: tail2 =>
                   if (q2 = '"' ∨ q2 = Char.ofNat 39) ∧ tail2.contains '>' then some url
                   else none
                 | [] => none)
              else none
            | [] => none)
         )
      else none
    | [] => none
  else none

/-- `html_img_pattern.search(s)`: the first position with a match; returns
`group(1)` (the src URL). -/
def htmlImgSearch (s : List Char) : Nat → Nat → Option (List Char)
  | 0, _ => none
  | fuel + 1, i =>
    match htmlImgMatchAt s i with
    | some url => some url
    | none => if i < s.length then htmlImgSearch s fuel (i + 1) else none

def htmlImgUrl (s : List Char) : Option (List Char) :=
  htmlImgSearch s (s.length + 1) 0

/-! ## Core helpers of `HeadingSegmenter` -/

/-- `_get_source_content`: `"\n".join(source_lines[map[0]:map[1]])` when the
token has a source mapping, else `None`. -/
def getSourceContent (t : Token) (sourceLines : List String) : Option String :=
  match t.tmap with
  | none => none
  | some ab => some (String.intercalate "\n" ((sourceLines.drop ab.1).take (ab.2 - ab.1)))

/-- Python `x or default` for an optional string: `None` and `""` are falsy. -/
def pyOr (x : Option String) (default : String) : String :=
  match x with
  | none => default
  | some s => if s = "" then default else s

/-- `int(token.tag[1:])` for the `hN` tags produced by the tokenizer. -/
def tagLevel (tag : String) : Nat :=
  (tag.toList.drop 1).foldl (fun n c => n * 10 + (c.toNat - 48)) 0

/-- Python `s.replace(old, new)` (all non-overlapping occurrences, left to
right); the fuel dominates the character count. -/
def replaceAux (old new : List Char) : Nat → List Char → List Char
  | 0, s => s
  | fuel + 1, s =>
    if old ≠ [] ∧ old.isPrefixOf s then new ++ replaceAux old new fuel (s.drop old.length)
    else match s with
      | [] => []
      | c :: rest => c :: replaceAux old new fuel rest

def pyReplace (s old new : String) : String :=
  ⟨replaceAux old.toList new.toList (s.toList.length + 1) s.toList⟩

/-- `_find_closing_token_index` inner loop: scanning the tokens after the
opening one with `j` the absolute index, returns the index where the nesting
counter reaches zero. -/
def findCloseAux (openType closeType : String) : List Token → Nat → Nat → Option Nat
  | [], _, _ => none
  | t :: rest, nesting, j =>
    let nesting' := if t.ttype = openType then nesting + 1
      else if t.ttype = closeType then nesting - 1 else nesting
    if nesting' = 0 then some j else findCloseAux openType closeType rest nesting' (j + 1)

/-- `_find_closing_token_index`: the matching close token's index, or
`start_index` itself when no match is found. -/
def findClosingTokenIndex (tokens : List Token) (startIndex : Nat) (closeType : String) : Nat :=
  let openType := pyReplace closeType "_close" "_open"
  match findCloseAux openType closeType (tokens.drop (startIndex + 1)) 1 (startIndex + 1) with
  | some j => j
  | none => startIndex

/-- `_add_chunk`: drops `text` chunks whose content strips to nothing,
otherwise appends one record (the caller passes copies of `pids`/`headers`). -/
def addChunk (chunk_id : Nat) (pids : List Nat) (level : Nat) (content : List Char)
    (type_str : String) (headers : List String) (meta : List (String × String)) : List Chunk :=
  if type_str = ChunkTypeTEXT ∧ pyStrip content = [] then []
  else [⟨chunk_id, pids, level, ⟨content⟩, type_str, headers, meta⟩]

/-! ## Hierarchical text splitting (`_handle_sentence_splitting`,
`_handle_text_splitting_hierarchical`) -/

/-- The clause-accumulation loop of `_handle_sentence_splitting` over the
`(part, sep)` pairs, with `cur` the `current_chunk_text` buffer. -/
def sentenceFold (cfg : Config) (pids : List Nat) (level : Nat) (headers : List String) :
    List (List Char × List Char) → List Char → Nat → List Chunk × Nat
  | [], cur, id =>
    if cur ≠ [] then (addChunk id pids level (pyStrip cur) ChunkTypeTEXT headers [], id + 1)
    else ([], id)
  | (part, sep) :: rest, cur, id =>
    let seg := part ++ sep
    if cfg.max_segment_length < cur.length + seg.length then
      let flushed : List Chunk × Nat :=
        if cur ≠ [] then (addChunk id pids level (pyStrip cur) ChunkTypeTEXT headers [], id + 1)
        else ([], id)
      if cfg.max_segment_length < seg.length then
        let emitted := addChunk flushed.2 pids level (pyStrip seg) ChunkTypeTEXT headers []
        let after := sentenceFold cfg pids level headers rest [] (flushed.2 + 1)
        (flushed.1 ++ emitted ++ after.1, after.2)
      else
        let after := sentenceFold cfg pids level headers rest seg flushed.2
        (flushed.1 ++ after.1, after.2)
    else sentenceFold cfg pids level headers rest (cur ++ seg) id

def handleSentenceSplitting (cfg : Config) (pids : List Nat) (level : Nat)
    (headers : List String) (text : List Char) (id : Nat) : List Chunk × Nat :=
  sentenceFold cfg pids level headers (pairUp (sentenceSplitParts text)) [] id

/-- The line-accumulation loop of `_handle_text_splitting_hierarchical`, with
`buffer` the `current_buffer`. -/
def lineFold (cfg : Config) (pids : List Nat) (level : Nat) (headers : List String) :
    List (List Char) → List Char → Nat → List Chunk × Nat
  | [], buffer, id =>
    if buffer ≠ [] then (addChunk id pids level (pyStrip buffer) ChunkTypeTEXT headers [], id + 1)
    else ([], id)
  | line :: rest, buffer, id =>
    if cfg.max_segment_length < buffer.length + line.length then
      let flushed : List Chunk × Nat :=
        if buffer ≠ [] then (addChunk id pids level (pyStrip buffer) ChunkTypeTEXT headers [], id + 1)
        else ([], id)
      if cfg.max_segment_length < line.length then
        let inner := handleSentenceSplitting cfg pids level headers line flushed.2
        let after := lineFold cfg pids level headers rest [] inner.2
        (flushed.1 ++ inner.1 ++ after.1, after.2)
      else
        let after := lineFold cfg pids level headers rest line flushed.2
        (flushed.1 ++ after.1, after.2)
    else lineFold cfg pids level headers rest (buffer ++ line) id

def handleTextSplittingHierarchical (cfg : Config) (pids : List Nat) (level : Nat)
    (headers : List String) (text : List Char) (id : Nat) : List Chunk × Nat :=
  if pyStrip text = [] then ([], id)
  else if text.length ≤ cfg.max_segment_length then
    (addChunk id pids level (pyStrip text) ChunkTypeTEXT headers [], id + 1)
  else lineFold cfg pids level headers (splitlinesKE text []) [] id

/-- `_flush_text_buffer`: join the buffered strings with a blank line and
route the result through the hierarchical splitter. -/
def flushTextBuffer (cfg : Config) (pids : List Nat) (level : Nat) (headers : List String)
    (buffer : List (List Char)) (id : Nat) : List Chunk × Nat :=
  if buffer = [] then ([], id)
  else handleTextSplittingHierarchical cfg pids level headers
    (List.intercalate "\n\n".toList buffer) id

/-! ## Mixed content (`_handle_mixed_content_robust`) -/

/-- One accepted image span `(start, end, raw_image_text, url, alt)`. -/
structure Span where
  start : Nat
  stop : Nat
  text : List Char
  url : List Char
  alt : List Char
deriving DecidableEq

/-- The structural-pass `while True` scan for one image child: locate
occurrences of `src`, accept one only when the two preceding characters strip
to `](`, extend backward to `![` and forward to `)`, and resume after the
accepted span (else one character further). -/
def scanUrlLoop (blockText src alt : List Char) : Nat → Nat → List Span
  | 0, _ => []
  | fuel + 1, searchStart =>
    match pyFind blockText src searchStart with
    | none => []
    | some srcIdx =>
      if 2 ≤ srcIdx ∧ pyStrip (pySlice blockText (srcIdx - 2) srcIdx) = [']', '('] then
        match pyFind blockText [')'] (srcIdx + src.length), pyRfind blockText ['!', '['] srcIdx with
        | some endParen, some startBracket =>
          ⟨startBracket, endParen + 1, pySlice blockText startBracket (endParen + 1), src, alt⟩
            :: scanUrlLoop blockText src alt fuel (endParen + 1)
        | some _, none => scanUrlLoop blockText src alt fuel (srcIdx + 1)
        | none, _ => scanUrlLoop blockText src alt fuel (srcIdx + 1)
      else scanUrlLoop blockText src alt fuel (srcIdx + 1)

/-- Structural pass (part A): for every inline token with children and every
`image` child with a non-empty `src`, collect its scan's spans in order. -/
def structuralSpans (blockText : List Char) (inlineTokens : List Token) : List Span :=
  inlineTokens.foldl (fun acc t =>
    if t.children = [] then acc
    else t.children.foldl (fun acc2 child =>
      if child.ctype = "image" then
        let src := (attrsGet child.attrs "src").toList
        if src = [] then acc2
        else acc2 ++ scanUrlLoop blockText src child.content.toList (blockText.length + 1) 0
      else acc2) acc) []

/-- Regex fallback pass (part B): each `finditer` match is appended unless its
range overlaps a span already in the list; the url is stripped. -/
def withFallbackSpans (blockText : List Char) (spans : List Span) : List Span :=
  (imageFinditer blockText (blockText.length + 1) 0).foldl (fun acc m =>
    if acc.any (fun sp => ¬ (m.2.1 ≤ sp.start ∨ sp.stop ≤ m.1)) then acc
    else acc ++ [⟨m.1, m.2.1, pySlice blockText m.1 m.2.1, pyStrip m.2.2.2, m.2.2.1⟩]) spans

/-- `image_spans.sort(key=lambda x: x[0])`: stable insertion sort on `start`. -/
def insertSpan (x : Span) : List Span → List Span
  | [] => [x]
  | y :: ys => if y.start ≤ x.start then y :: insertSpan x ys else x :: y :: ys

def sortSpans (l : List Span) : List Span :=
  l.foldl (fun acc x => insertSpan x acc) []

/-- Part C: walk the sorted spans, routing the text before each span through
the hierarchical splitter, emitting each span as one IMAGE chunk, and flushing
the trailing text. -/
def emitSpans (cfg : Config) (pids : List Nat) (level : Nat) (headers : List String)
    (blockText : List Char) : List Span → Nat → Nat → List Chunk × Nat
  | [], cursor, id =>
    if cursor < blockText.length then
      handleTextSplittingHierarchical cfg pids level headers (blockText.drop cursor) id
    else ([], id)
  | sp :: rest, cursor, id =>
    let pre : List Chunk × Nat :=
      if cursor < sp.start then
        handleTextSplittingHierarchical cfg pids level headers
          (pySlice blockText cursor sp.start) id
      else ([], id)
    let img := addChunk pre.2 pids level sp.text ChunkTypeIMAGE headers
      [("url", ⟨sp.url⟩), ("alt", ⟨sp.alt⟩)]
    let after := emitSpans cfg pids level headers blockText rest sp.stop (pre.2 + 1)
    (pre.1 ++ img ++ after.1, after.2)

def handleMixedContentRobust (cfg : Config) (blockText : List Char)
    (inlineTokens : List Token) (pids : List Nat) (level : Nat) (headers : List String)
    (id : Nat) : List Chunk × Nat :=
  emitSpans cfg pids level headers blockText
    (sortSpans (withFallbackSpans blockText (structuralSpans blockText inlineTokens))) 0 id

/-! ## HTML blocks (`_handle_html_block`) -/

def handleHtmlBlock (cfg : Config) (content : List Char) (pids : List Nat) (level : Nat)
    (headers : List String) (id : Nat) : List Chunk × Nat :=
  match htmlImgUrl content with
  | some url =>
    (addChunk id pids level content ChunkTypeHTML_IMAGE headers [("url", ⟨url⟩), ("alt", "")], id + 1)
  | none =>
    if htmlTableSearch content then
      (addChunk id pids level content ChunkTypeHTML_TABLE headers [], id + 1)
    else if htmlPreSearch content then
      (addChunk id pids level content ChunkTypeHTML_CODE headers [], id + 1)
    else handleTextSplittingHierarchical cfg pids level headers content id

/-! ## Section content (`_process_section_content`) -/

/-- `token.type.replace("_open", "_close")` for the routed block types. -/
def closeTypeOf (t : String) : String :=
  pyReplace t "_open" "_close"

def dummyToken : Token := ⟨"", "", "", none, []⟩

/-- Does the block contain a structural inline image
(`t.children and any(c.type == "image" for c in t.children)`)? -/
def hasStandardImage (inlineTokens : List Token) : Bool :=
  inlineTokens.any (fun t => t.children ≠ [] ∧ t.children.any (fun c => c.ctype = "image"))

/-- The token-dispatch loop of `_process_section_content`: `i` is the current
index into `toks`, `buf` the pending text buffer.  The fuel dominates the
iteration count (each step advances `i` by at least one). -/
def processContentAux (cfg : Config) (sourceLines : List String) (pids : List Nat)
    (level : Nat) (headers : List String) (toks : List Token) :
    Nat → Nat → List (List Char) → Nat → List Chunk × Nat
  | 0, _, buf, id => flushTextBuffer cfg pids level headers buf id
  | fuel + 1, i, buf, id =>
    if i < toks.length then
      let token := toks.getD i dummyToken
      if token.ttype = "fence" ∨ token.ttype = "code_block" then
        let flushed := flushTextBuffer cfg pids level headers buf id
        let content := pyOr (getSourceContent token sourceLines) token.content
        let emitted := addChunk flushed.2 pids level content.toList ChunkTypeCODE headers []
        let after := processContentAux cfg sourceLines pids level headers toks fuel (i + 1) [] (flushed.2 + 1)
        (flushed.1 ++ emitted ++ after.1, after.2)
      else if token.ttype = "table_open" then
        let flushed := flushTextBuffer cfg pids level headers buf id
        let closeIdx := findClosingTokenIndex toks i "table_close"
        let content := pyOr (getSourceContent token sourceLines) "<table markdown>"
        let emitted := addChunk flushed.2 pids level content.toList ChunkTypeTABLE headers []
        let after := processContentAux cfg sourceLines pids level headers toks fuel (closeIdx + 1) [] (flushed.2 + 1)
        (flushed.1 ++ emitted ++ after.1, after.2)
      else if token.ttype = "html_block" then
        let content := token.content.toList
        if htmlImgUrl content ≠ none ∨ htmlTableSearch content ∨ htmlPreSearch content then
          let flushed := flushTextBuffer cfg pids level headers buf id
          let handled := handleHtmlBlock cfg content pids level headers flushed.2
          let after := processContentAux cfg sourceLines pids level headers toks fuel (i + 1) [] handled.2
          (flushed.1 ++ handled.1 ++ after.1, after.2)
        else processContentAux cfg sourceLines pids level headers toks fuel (i + 1) (buf ++ [content]) id
      else if token.ttype = "paragraph_open" ∨ token.ttype = "bullet_list_open"
          ∨ token.ttype = "ordered_list_open" ∨ token.ttype = "blockquote_open"
          ∨ token.ttype = "heading_open" then
        let closeIdx := findClosingTokenIndex toks i (closeTypeOf token.ttype)
        let blockContent := getSourceContent token sourceLines
        match blockContent with
        | some bc =>
          if bc ≠ "" then
            let inlineTokens := ((toks.drop (i + 1)).take (closeIdx - (i + 1))).filter
              (fun t => t.ttype = "inline")
            if hasStandardImage inlineTokens ∨ imageSearch bc.toList then
              let flushed := flushTextBuffer cfg pids level headers buf id
              let mixed := handleMixedContentRobust cfg bc.toList inlineTokens pids level headers flushed.2
              let after := processContentAux cfg sourceLines pids level headers toks fuel (closeIdx + 1) [] mixed.2
              (flushed.1 ++ mixed.1 ++ after.1, after.2)
            else processContentAux cfg sourceLines pids level headers toks fuel (closeIdx + 1) (buf ++ [bc.toList]) id
          else processContentAux cfg sourceLines pids level headers toks fuel (closeIdx + 1) buf id
        | none => processContentAux cfg sourceLines pids level headers toks fuel (closeIdx + 1) buf id
      else processContentAux cfg sourceLines pids level headers toks fuel (i + 1) buf id
    else flushTextBuffer cfg pids level headers buf id

def processSectionContent (cfg : Config) (sourceLines : List String) (pids : List Nat)
    (level : Nat) (headers : List String) (toks : List Token) (id : Nat) : List Chunk × Nat :=
  processContentAux cfg sourceLines pids level headers toks (toks.length + 1) 0 [] id

/-! ## Section tree (`SectionNode`, `_build_section_tree`) -/

/-- A finished section node: level, raw title, direct content tokens,
children in document order. -/
inductive SNode where
  | node (level : Nat) (rawTitle : String) (stokens : List Token) (children : List SNode)

def SNode.lvl : SNode → Nat
  | .node l _ _ _ => l

def SNode.title : SNode → String
  | .node _ t _ _ => t

def SNode.toks : SNode → List Token
  | .node _ _ tk _ => tk

def SNode.childs : SNode → List SNode
  | .node _ _ _ ch => ch

/-- A node still under construction (children found so far). -/
structure Frame where
  level : Nat
  rawTitle : String
  ftokens : List Token
  fchildren : List SNode

def Frame.toSNode (f : Frame) : SNode :=
  SNode.node f.level f.rawTitle f.ftokens f.fchildren

/-- Attach the finished frame `f` as the last child of its parent `g`
(the `current_node = current_node.parent` pop). -/
def mergeFrame (f g : Frame) : Frame :=
  ⟨g.level, g.rawTitle, g.ftokens, g.fchildren ++ [f.toSNode]⟩

/-- `while current_node.level >= level and current_node.parent is not None`:
pop the zipper until the current frame is shallower than `level` or is the
root. -/
def popWhile (level : Nat) (f : Frame) : List Frame → Frame × List Frame
  | [] => (f, [])
  | g :: rest =>
    if level ≤ f.level then popWhile level (mergeFrame f g) rest
    else (f, g :: rest)

/-- Close every open frame at the end of the scan, producing the root. -/
def collapseAll (f : Frame) : List Frame → Frame
  | [] => f
  | g :: rest => collapseAll (mergeFrame f g) rest

def Frame.pushToken (f : Frame) (t : Token) : Frame :=
  ⟨f.level, f.rawTitle, f.ftokens ++ [t], f.fchildren⟩

/-- `while i < len(tokens) and tokens[i].type != "heading_close": i += 1`
followed by `i += 1`, starting at the `heading_open` token itself. -/
def dropHeading (l : List Token) : List Token :=
  (l.dropWhile (fun t => t.ttype ≠ "heading_close")).drop 1

/-- The raw heading title: the exact source slice when available and
non-empty, else `'#' * level + ' ' + inline_content` where `inline_content`
is the next token's content. -/
def headingRawTitle (t : Token) (sourceLines : List String) (level : Nat)
    (rest : List Token) : String :=
  let rt := pyOr (getSourceContent t sourceLines) ""
  if rt = "" then
    ⟨List.replicate level '#'⟩ ++ " " ++ (match rest with
      | n :: _ => n.content
      | [] => "")
  else rt

/-- The token scan of `_build_section_tree` as a zipper: `cur` is the current
frame, `anc` its open ancestors (innermost first, root last). -/
def buildAux (cfg : Config) (sourceLines : List String) :
    Nat → List Token → Frame → List Frame → Frame
  | 0, _, cur, anc => collapseAll cur anc
  | _ + 1, [], cur, anc => collapseAll cur anc
  | fuel + 1, t :: rest, cur, anc =>
    if t.ttype = "heading_open" then
      let level := tagLevel t.tag
      if level ≤ cfg.heading_level_limit then
        let rawTitle := headingRawTitle t sourceLines level rest
        let popped := popWhile level cur anc
        buildAux cfg sourceLines fuel (dropHeading (t :: rest))
          ⟨level, rawTitle, [], []⟩ (popped.1 :: popped.2)
      else buildAux cfg sourceLines fuel rest (cur.pushToken t) anc
    else buildAux cfg sourceLines fuel rest (cur.pushToken t) anc

/-- `_build_section_tree`: the finished root node (level 0). -/
def buildSectionTree (cfg : Config) (tokens : List Token) (sourceLines : List String) : SNode :=
  (buildAux cfg sourceLines (tokens.length + 1) tokens ⟨0, "", [], []⟩ []).toSNode

/-! ## Tree walk (`_process_node_recursively`) and `split` -/

/-- `_process_node_recursively`: allocate the header chunk's id first, emit
it, then the section's direct content, then the children in order.  The fuel
bounds the tree depth. -/
def processNodeRecursively (cfg : Config) (sourceLines : List String) :
    Nat → SNode → List Nat → List String → Nat → List Chunk × Nat
  | 0, _, _, _, id => ([], id)
  | fuel + 1, SNode.node level rawTitle stoks children, parentPids, parentHeaders, id =>
    let headerId := id
    let headerChunk := addChunk headerId parentPids level rawTitle.toList ChunkTypeHEADER parentHeaders []
    let curPids := parentPids ++ [headerId]
    let curHeaders := parentHeaders ++ [rawTitle]
    let contentOut : List Chunk × Nat :=
      if stoks ≠ [] then
        processSectionContent cfg sourceLines curPids level curHeaders stoks (headerId + 1)
      else ([], headerId + 1)
    let childrenOut := children.foldl (fun (acc : List Chunk × Nat) child =>
      let o := processNodeRecursively cfg sourceLines fuel child curPids curHeaders acc.2
      (acc.1 ++ o.1, o.2)) ([], contentOut.2)
    (headerChunk ++ contentOut.1 ++ childrenOut.1, childrenOut.2)

/-- `split`, from the tokenizer interface onward: build the tree, process the
root's direct content with an empty ancestor chain, then each top-level
section.  `id0` is the engine's `current_id` when `split` is entered (1 for a
fresh engine; `split` itself never resets it). -/
def split (cfg : Config) (tokens : List Token) (sourceLines : List String)
    (id0 : Nat) : List Chunk × Nat :=
  let root := buildSectionTree cfg tokens sourceLines
  let rootOut : List Chunk × Nat :=
    if root.toks ≠ [] then
      processSectionContent cfg sourceLines [] 0 [] root.toks id0
    else ([], id0)
  let sectionsOut := root.childs.foldl (fun (acc : List Chunk × Nat) child =>
    let o := processNodeRecursively cfg sourceLines (tokens.length + 1) child [] [] acc.2
    (acc.1 ++ o.1, o.2)) ([], rootOut.2)
  (rootOut.1 ++ sectionsOut.1, sectionsOut.2)

/-! ## Specification predicates -/

/-- The id discipline of one emitting step: starting from counter `id` it
returns chunks whose ids are strictly increasing and lie in
`[id, next_counter)`, and the counter never decreases. -/
def emitsOk (id : Nat) (p : List Chunk × Nat) : Prop :=
  id ≤ p.2 ∧ List.Pairwise (· < ·) (p.1.map Chunk.id) ∧ ∀ c ∈ p.1, id ≤ c.id ∧ c.id < p.2

/-- The ancestor-chain discipline for a `(pids, headers)` pair relative to the
chunks `ctx` emitted so far: equal lengths, and the last parent id (if any)
identifies an already-emitted `header` chunk whose `headers` is a strict
prefix of `headers`. -/
def pidsHeadersOk (ctx : List Chunk) (pids : List Nat) (headers : List String) : Prop :=
  pids.length = headers.length ∧
  (pids ≠ [] → ∃ h ∈ ctx, h.ctype = ChunkTypeHEADER ∧ pids.getLast? = some h.id ∧
    h.headers <+: headers ∧ h.headers ≠ headers)

def dummyChunk : Chunk := ⟨0, [], 0, "", "", [], []⟩

def chunkOk (ctx : List Chunk) (c : Chunk) : Prop :=
  pidsHeadersOk ctx c.pids c.headers

/-- Every chunk of the list satisfies `chunkOk` relative to the context
extended with the chunks before it. -/
def chunksOkFrom (ctx : List Chunk) : List Chunk → Prop
  | [] => True
  | c :: rest => chunkOk ctx c ∧ chunksOkFrom (ctx ++ [c]) rest

/-- Every node level in the tree is at most `lim`. -/
inductive TreeLevelsLe (lim : Nat) : SNode → Prop where
  | mk {lv : Nat} {t : String} {tk : List Token} {children : List SNode} :
    lv ≤ lim → (∀ c ∈ children, TreeLevelsLe lim c) →
    TreeLevelsLe lim (SNode.node lv t tk children)

/-- Heading levels strictly increase along every root-to-leaf path: each
child's level strictly exceeds its parent's. -/
inductive StrictTree : SNode → Prop where
  | mk {lv : Nat} {t : String} {tk : List Token} {children : List SNode} :
    (∀ c ∈ children, lv < c.lvl) → (∀ c ∈ children, StrictTree c) →
    StrictTree (SNode.node lv t tk children)

/-- The tree-builder invariant for C6: a frame under construction whose own
level and finished children respect the heading-level limit. -/
def FrameLevelsOk (lim : Nat) (f : Frame) : Prop :=
  f.level ≤ lim ∧ ∀ c ∈ f.fchildren, TreeLevelsLe lim c

/-- The tree-builder invariant for C10: every finished child of the frame is
strictly deeper than the frame and internally strict. -/
def FrameStrict (f : Frame) : Prop :=
  ∀ c ∈ f.fchildren, f.level < c.lvl ∧ StrictTree c

/-- The zipper stack (current frame first, root last) has strictly decreasing
levels and its bottom is the level-0 root. -/
def stackLevels : List Frame → Prop
  | [] => True
  | [f] => f.level = 0
  | f :: g :: rest => g.level < f.level ∧ stackLevels (g :: rest)

/-! ## Concrete inputs used by the claim theorems -/

/-- The default configuration (`max_segment_length=500`,
`heading_level_limit=6`). -/
def cfg500 : Config := ⟨500, 6⟩

def cfg12 : Config := ⟨12, 6⟩

def cfg10 : Config := ⟨10, 6⟩

def cfg3 : Config := ⟨500, 3⟩

/-- Tokens of the document `"# T"`. -/
def toksT : List Token := [⟨"heading_open", "h1", "", some (0, 1), []⟩,
  ⟨"inline", "", "T", some (0, 1), []⟩, ⟨"heading_close", "h1", "", none, []⟩]

/-- A bullet list whose middle source line is whitespace-only. -/
def toksBL : List Token := [⟨"bullet_list_open", "ul", "", some (0, 3), []⟩,
  ⟨"bullet_list_close", "ul", "", none, []⟩]

def linesBL : List String := ["- aaaaaaaaaaaa", "    ", "- bbbbbbbbbbbb"]

/-- A paragraph with two structural images sharing one URL. -/
def toksDup : List Token := [⟨"paragraph_open", "p", "", some (0, 1), []⟩,
  ⟨"inline", "", "![a](u) ![b](u)", some (0, 1),
    [⟨"image", "a", [("src", "u")]⟩, ⟨"image", "b", [("src", "u")]⟩]⟩,
  ⟨"paragraph_close", "p", "", none, []⟩]

/-- The spec's oversized-token paragraph `"A" * 10 + " " + "B" * 10`. -/
def toksAB : List Token := [⟨"paragraph_open", "p", "", some (0, 1), []⟩,
  ⟨"inline", "", "AAAAAAAAAA BBBBBBBBBB", some (0, 1), []⟩,
  ⟨"paragraph_close", "p", "", none, []⟩]

/-- A depth-4 heading between two paragraphs. -/
def toksH4 : List Token := [⟨"paragraph_open", "p", "", some (0, 1), []⟩,
  ⟨"inline", "", "text before", some (0, 1), []⟩, ⟨"paragraph_close", "p", "", none, []⟩,
  ⟨"heading_open", "h4", "", some (2, 3), []⟩, ⟨"inline", "", "Deep", some (2, 3), []⟩,
  ⟨"heading_close", "h4", "", none, []⟩,
  ⟨"paragraph_open", "p", "", some (4, 5), []⟩, ⟨"inline", "", "text after", some (4, 5), []⟩,
  ⟨"paragraph_close", "p", "", none, []⟩]

def linesH4 : List String := ["text before", "", "#### Deep", "", "text after"]

/-- A paragraph with an image whose URL is empty. -/
def toksEmptyUrl : List Token := [⟨"paragraph_open", "p", "", some (0, 1), []⟩,
  ⟨"inline", "", "See ![x]() here.", some (0, 1), [⟨"image", "x", [("src", "")]⟩]⟩,
  ⟨"paragraph_close", "p", "", none, []⟩]

/-- A `table_open` whose `table_close` is missing (malformed nesting). -/
def toksMalformed : List Token := [⟨"table_open", "table", "", none, []⟩,
  ⟨"inline", "", "r", none, []⟩]

/-- A depth-2 heading with no source mapping. -/
def toksH2NoMap : List Token := [⟨"heading_open", "h2", "", none, []⟩,
  ⟨"inline", "", "T", none, []⟩, ⟨"heading_close", "h2", "", none, []⟩]

/-- A heading followed by a paragraph. -/
def toksHP : List Token := [⟨"heading_open", "h1", "", some (0, 1), []⟩,
  ⟨"inline", "", "T", some (0, 1), []⟩, ⟨"heading_close", "h1", "", none, []⟩,
  ⟨"paragraph_open", "p", "", some (1, 2), []⟩, ⟨"inline", "", "hello.", some (1, 2), []⟩,
  ⟨"paragraph_close", "p", "", none, []⟩]

def linesHP : List String := ["# T", "hello."]

/-- An `h1` followed by an `h2` section. -/
def toksH1H2 : List Token := [⟨"heading_open", "h1", "", some (0, 1), []⟩,
  ⟨"inline", "", "A", some (0, 1), []⟩, ⟨"heading_close", "h1", "", none, []⟩,
  ⟨"heading_open", "h2", "", some (1, 2), []⟩, ⟨"inline", "", "B", some (1, 2), []⟩,
  ⟨"heading_close", "h2", "", none, []⟩]

def linesH1H2 : List String := ["# A", "## B"]

/-! ## Id discipline: every emitter produces strictly increasing ids bounded
by the counter interval -/

theorem emitsOk_nil (id : Nat) : emitsOk id ([], id) :=
  ⟨Nat.le_refl id, List.Pairwise.nil, by simp⟩

theorem emitsOk_addChunk (id : Nat) (pids : List Nat) (level : Nat) (content : List Char)
    (type_str : String) (headers : List String) (meta : List (String × String)) :
    emitsOk id (addChunk id pids level content type_str headers meta, id + 1) := by
  unfold addChunk emitsOk
  split
  · exact ⟨Nat.le_succ id, List.Pairwise.nil, by simp⟩
  · refine ⟨Nat.le_succ id, by simp, ?_⟩
    intro c hc
    simp only [List.mem_singleton] at hc
    subst hc
    exact ⟨Nat.le_refl id, Nat.lt_succ_self id⟩

/-- The `if current: flush it` shape used by both accumulation loops. -/
theorem emitsOk_condFlush (id : Nat) (pids : List Nat) (level : Nat) (content : List Char)
    (headers : List String) {c : Prop} [Decidable c] :
    emitsOk id ((if c then (addChunk id pids level content ChunkTypeTEXT headers [], id + 1)
      else ([], id)) : List Chunk × Nat) := by
  split
  · exact emitsOk_addChunk id pids level content ChunkTypeTEXT headers []
  · exact emitsOk_nil id

theorem emitsOk_append {a : Nat} {p q : List Chunk × Nat}
    (hp : emitsOk a p) (hq : emitsOk p.2 q) : emitsOk a (p.1 ++ q.1, q.2) := by
  obtain ⟨hle1, hpw1, hb1⟩ := hp
  obtain ⟨hle2, hpw2, hb2⟩ := hq
  refine ⟨Nat.le_trans hle1 hle2, ?_, ?_⟩
  · rw [List.map_append, List.pairwise_append]
    refine ⟨hpw1, hpw2, ?_⟩
    intro x hx y hy
    obtain ⟨cx, hcx, rfl⟩ := List.mem_map.mp hx
    obtain ⟨cy, hcy, rfl⟩ := List.mem_map.mp hy
    exact Nat.lt_of_lt_of_le (hb1 cx hcx).2 (hb2 cy hcy).1
  · intro c hc
    rcases List.mem_append.mp hc with h | h
    · exact ⟨(hb1 c h).1, Nat.lt_of_lt_of_le (hb1 c h).2 hle2⟩
    · exact ⟨Nat.le_trans hle1 (hb2 c h).1, (hb2 c h).2⟩

theorem sentenceFold_emitsOk (cfg : Config) (pids : List Nat) (level : Nat)
    (headers : List String) :
    ∀ pairs cur id, emitsOk id (sentenceFold cfg pids level headers pairs cur id)
  | [], cur, id => by
    simp only [sentenceFold]
    exact emitsOk_condFlush id pids level (pyStrip cur) headers
  | (part, sep) :: rest, cur, id => by
    have ih0 := sentenceFold_emitsOk cfg pids level headers rest
    simp only [sentenceFold]
    split
    · split
      · exact emitsOk_append
          (emitsOk_append (emitsOk_condFlush id pids level (pyStrip cur) headers)
            (emitsOk_addChunk _ pids level (pyStrip (part ++ sep)) ChunkTypeTEXT headers []))
          (ih0 [] _)
      · exact emitsOk_append (emitsOk_condFlush id pids level (pyStrip cur) headers)
          (ih0 (part ++ sep) _)
    · exact ih0 (cur ++ (part ++ sep)) id

theorem handleSentenceSplitting_emitsOk (cfg : Config) (pids : List Nat) (level : Nat)
    (headers : List String) (text : List Char) (id : Nat) :
    emitsOk id (handleSentenceSplitting cfg pids level headers text id) :=
  sentenceFold_emitsOk cfg pids level headers _ [] id

theorem lineFold_emitsOk (cfg : Config) (pids : List Nat) (level : Nat)
    (headers : List String) :
    ∀ lines buffer id, emitsOk id (lineFold cfg pids level headers lines buffer id)
  | [], buffer, id => by
    simp only [lineFold]
    exact emitsOk_condFlush id pids level (pyStrip buffer) headers
  | line :: rest, buffer, id => by
    have ih0 := lineFold_emitsOk cfg pids level headers rest
    simp only [lineFold]
    split
    · split
      · exact emitsOk_append
          (emitsOk_append (emitsOk_condFlush id pids level (pyStrip buffer) headers)
            (handleSentenceSplitting_emitsOk cfg pids level headers line _))
          (ih0 [] _)
      · exact emitsOk_append (emitsOk_condFlush id pids level (pyStrip buffer) headers)
          (ih0 line _)
    · exact ih0 (buffer ++ line) id

theorem handleTextSplittingHierarchical_emitsOk (cfg : Config) (pids : List Nat) (level : Nat)
    (headers : List String) (text : List Char) (id : Nat) :
    emitsOk id (handleTextSplittingHierarchical cfg pids level headers text id) := by
  unfold handleTextSplittingHierarchical
  split
  · exact emitsOk_nil id
  · split
    · exact emitsOk_addChunk id pids level (pyStrip text) ChunkTypeTEXT headers []
    · exact lineFold_emitsOk cfg pids level headers _ [] id

theorem flushTextBuffer_emitsOk (cfg : Config) (pids : List Nat) (level : Nat)
    (headers : List String) (buffer : List (List Char)) (id : Nat) :
    emitsOk id (flushTextBuffer cfg pids level headers buffer id) := by
  unfold flushTextBuffer
  split
  · exact emitsOk_nil id
  · exact handleTextSplittingHierarchical_emitsOk cfg pids level headers _ id

theorem emitSpans_emitsOk (cfg : Config) (pids : List Nat) (level : Nat)
    (headers : List String) (blockText : List Char) :
    ∀ spans cursor id, emitsOk id (emitSpans cfg pids level headers blockText spans cursor id)
  | [], cursor, id => by
    simp only [emitSpans]
    split
    · exact handleTextSplittingHierarchical_emitsOk cfg pids level headers _ id
    · exact emitsOk_nil id
  | sp :: rest, cursor, id => by
    have ih0 := emitSpans_emitsOk cfg pids level headers blockText rest
    have hpre : emitsOk id ((if cursor < sp.start then
        handleTextSplittingHierarchical cfg pids level headers
          (pySlice blockText cursor sp.start) id
      else ([], id)) : List Chunk × Nat) := by
      split
      · exact handleTextSplittingHierarchical_emitsOk cfg pids level headers _ id
      · exact emitsOk_nil id
    simp only [emitSpans]
    exact emitsOk_append
      (emitsOk_append hpre
        (emitsOk_addChunk _ pids level sp.text ChunkTypeIMAGE headers _))
      (ih0 sp.stop _)

theorem handleMixedContentRobust_emitsOk (cfg : Config) (blockText : List Char)
    (inlineTokens : List Token) (pids : List Nat) (level : Nat) (headers : List String)
    (id : Nat) : emitsOk id (handleMixedContentRobust cfg blockText inlineTokens pids level headers id) :=
  emitSpans_emitsOk cfg pids level headers blockText _ 0 id

theorem handleHtmlBlock_emitsOk (cfg : Config) (content : List Char) (pids : List Nat)
    (level : Nat) (headers : List String) (id : Nat) :
    emitsOk id (handleHtmlBlock cfg content pids level headers id) := by
  unfold handleHtmlBlock
  split
  · exact emitsOk_addChunk id pids level content ChunkTypeHTML_IMAGE headers _
  · split
    · exact emitsOk_addChunk id pids level content ChunkTypeHTML_TABLE headers []
    · split
      · exact emitsOk_addChunk id pids level content ChunkTypeHTML_CODE headers []
      · exact handleTextSplittingHierarchical_emitsOk cfg pids level headers content id

theorem processContentAux_emitsOk (cfg : Config) (sourceLines : List String) (pids : List Nat)
    (level : Nat) (headers : List String) (toks : List Token) :
    ∀ fuel i buf id, emitsOk id (processContentAux cfg sourceLines pids level headers toks fuel i buf id)
  | 0, _, buf, id => flushTextBuffer_emitsOk cfg pids level headers buf id
  | fuel + 1, i, buf, id => by
    have ih0 := processContentAux_emitsOk cfg sourceLines pids level headers toks fuel
    simp only [processContentAux]
    split
    · split
      · exact emitsOk_append
          (emitsOk_append (flushTextBuffer_emitsOk cfg pids level headers buf id)
            (emitsOk_addChunk _ pids level _ ChunkTypeCODE headers []))
          (ih0 _ [] _)
      · split
        · exact emitsOk_append
            (emitsOk_append (flushTextBuffer_emitsOk cfg pids level headers buf id)
              (emitsOk_addChunk _ pids level _ ChunkTypeTABLE headers []))
            (ih0 _ [] _)
        · split
          · split
            · exact emitsOk_append
                (emitsOk_append (flushTextBuffer_emitsOk cfg pids level headers buf id)
                  (handleHtmlBlock_emitsOk cfg _ pids level headers _))
                (ih0 _ [] _)
            · exact ih0 _ _ id
          · split
            · split
              · split
                · split
                  · exact emitsOk_append
                      (emitsOk_append (flushTextBuffer_emitsOk cfg pids level headers buf id)
                        (handleMixedContentRobust_emitsOk cfg _ _ pids level headers _))
                      (ih0 _ [] _)
                  · exact ih0 _ _ id
                · exact ih0 _ _ id
              · exact ih0 _ _ id
            · exact ih0 _ _ id
    · exact flushTextBuffer_emitsOk cfg pids level headers buf id

theorem processSectionContent_emitsOk (cfg : Config) (sourceLines : List String)
    (pids : List Nat) (level : Nat) (headers : List String) (toks : List Token) (id : Nat) :
    emitsOk id (processSectionContent cfg sourceLines pids level headers toks id) :=
  processContentAux_emitsOk cfg sourceLines pids level headers toks _ 0 [] id

/-- The state-threading fold over a list of work items preserves the id
discipline. -/
theorem emitsOk_foldl {α : Type} (f : α → Nat → List Chunk × Nat)
    (hf : ∀ a id, emitsOk id (f a id)) (l : List α) :
    ∀ (acc : List Chunk × Nat) (id0 : Nat), emitsOk id0 acc →
      emitsOk id0 (l.foldl (fun acc a => ((acc.1 ++ (f a acc.2).1, (f a acc.2).2) : List Chunk × Nat)) acc) := by
  induction l with
  | nil => intro acc id0 h; exact h
  | cons a rest ih =>
    intro acc id0 h
    exact ih _ id0 (emitsOk_append h (hf a acc.2))

theorem processNodeRecursively_emitsOk (cfg : Config) (sourceLines : List String) :
    ∀ fuel node parentPids parentHeaders id,
      emitsOk id (processNodeRecursively cfg sourceLines fuel node parentPids parentHeaders id)
  | 0, _, _, _, id => emitsOk_nil id
  | fuel + 1, SNode.node level rawTitle stoks children, pp, ph, id => by
    have ih0 : ∀ (child : SNode) (j : Nat),
        emitsOk j (processNodeRecursively cfg sourceLines fuel child (pp ++ [id]) (ph ++ [rawTitle]) j) :=
      fun child j => processNodeRecursively_emitsOk cfg sourceLines fuel child _ _ j
    have hcontent : emitsOk (id + 1) ((if stoks ≠ [] then
        processSectionContent cfg sourceLines (pp ++ [id]) level (ph ++ [rawTitle]) stoks (id + 1)
      else ([], id + 1)) : List Chunk × Nat) := by
      split
      · exact processSectionContent_emitsOk cfg sourceLines _ level _ stoks (id + 1)
      · exact emitsOk_nil (id + 1)
    simp only [processNodeRecursively]
    exact emitsOk_append
      (emitsOk_append (emitsOk_addChunk id pp level rawTitle.toList ChunkTypeHEADER ph []) hcontent)
      (emitsOk_foldl _ ih0 children ([], _) _ (emitsOk_nil _))

theorem split_emitsOk (cfg : Config) (tokens : List Token) (sourceLines : List String)
    (id0 : Nat) : emitsOk id0 (split cfg tokens sourceLines id0) := by
  unfold split
  have hroot : emitsOk id0 ((if (buildSectionTree cfg tokens sourceLines).toks ≠ [] then
      processSectionContent cfg sourceLines [] 0 [] (buildSectionTree cfg tokens sourceLines).toks id0
    else ([], id0)) : List Chunk × Nat) := by
    split
    · exact processSectionContent_emitsOk cfg sourceLines [] 0 [] _ id0
    · exact emitsOk_nil id0
  exact emitsOk_append hroot
    (emitsOk_foldl _
      (fun child j => processNodeRecursively_emitsOk cfg sourceLines _ child [] [] j)
      _ ([], _) _ (emitsOk_nil _))

/-! ## Claim C1: chunk ids -/

/-- C1 (amended): for every input, the chunk ids of a `split` run started at
counter 1 are strictly increasing in emission order (hence no repeats) and
every id is at least 1.  The ids need not be dense and need not start exactly
at 1: the counter also advances when a flushed text fragment strips to empty
and its chunk is dropped (see `c1_counterexample`). -/
theorem c1_ids_strictly_increasing (cfg : Config) (tokens : List Token)
    (sourceLines : List String) :
    List.Pairwise (· < ·) ((split cfg tokens sourceLines 1).1.map Chunk.id) ∧
    ∀ c ∈ (split cfg tokens sourceLines 1).1, 1 ≤ c.id := by
  have h := split_emitsOk cfg tokens sourceLines 1
  exact ⟨h.2.1, fun c hc => (h.2.2 c hc).1⟩

/-- Witness for `c1_ids_strictly_increasing` at the document `"# T"`. -/
theorem c1_ids_strictly_increasing_witness :
    1 ≤ ((split cfg500 toksT ["# T"] 1).1.getD 0 dummyChunk).id :=
  (c1_ids_strictly_increasing cfg500 toksT ["# T"]).2
    ((split cfg500 toksT ["# T"] 1).1.getD 0 dummyChunk) (by decide)

/-- C1 counterexample: a bullet list whose whitespace-only middle source line
is flushed as an (empty, dropped) text chunk consumes id 2, so the emitted
ids are `[1, 3]` — not the dense sequence `[1, 2]` the claim requires for a
two-chunk output. -/
theorem c1_counterexample :
    (split cfg12 toksBL linesBL 1).1.map Chunk.id = [1, 3] ∧
    (split cfg12 toksBL linesBL 1).1.map Chunk.id ≠
      List.range' 1 (split cfg12 toksBL linesBL 1).1.length := by
  constructor
  · decide
  · decide

/-! ## Claim C2: the id counter is not reset by `split` -/

/-- C2 counter-evidence: `split` never resets `current_id` (only `__init__`
sets it to 1), so a second `split` of `"# T"` on the same engine starts at the
counter value 2 left by the first and produces a different output: the claim's
idempotence fails on the code. -/
theorem c2_counter_not_reset :
    (split cfg500 toksT ["# T"] 1).1.map Chunk.id = [1] ∧
    (split cfg500 toksT ["# T"] 1).2 = 2 ∧
    (split cfg500 toksT ["# T"] ((split cfg500 toksT ["# T"] 1).2)).1.map Chunk.id = [2] ∧
    (split cfg500 toksT ["# T"] ((split cfg500 toksT ["# T"] 1).2)).1 ≠
      (split cfg500 toksT ["# T"] 1).1 := by
  refine ⟨by decide, by decide, by decide, by decide⟩

/-! ## Claim C3: parent chains -/

theorem pidsHeadersOk_mono {ctx ctx2 : List Chunk} {pids : List Nat} {headers : List String}
    (hsub : ∀ c, c ∈ ctx → c ∈ ctx2) (h : pidsHeadersOk ctx pids headers) :
    pidsHeadersOk ctx2 pids headers := by
  refine ⟨h.1, fun hne => ?_⟩
  obtain ⟨hd, hmem, hp⟩ := h.2 hne
  exact ⟨hd, hsub hd hmem, hp⟩

theorem chunkOk_mono {ctx ctx2 : List Chunk} {c : Chunk}
    (hsub : ∀ x, x ∈ ctx → x ∈ ctx2) (h : chunkOk ctx c) : chunkOk ctx2 c :=
  pidsHeadersOk_mono hsub h

theorem chunksOkFrom_mono {ctx ctx2 : List Chunk} (hsub : ∀ c, c ∈ ctx → c ∈ ctx2) :
    ∀ l, chunksOkFrom ctx l → chunksOkFrom ctx2 l
  | [], _ => trivial
  | c :: rest, h => by
    refine ⟨chunkOk_mono hsub h.1, ?_⟩
    refine chunksOkFrom_mono (fun x hx => ?_) rest h.2
    rcases List.mem_append.mp hx with hx | hx
    · exact List.mem_append.mpr (Or.inl (hsub x hx))
    · exact List.mem_append.mpr (Or.inr hx)

theorem chunksOkFrom_append {b : List Chunk} :
    ∀ (a : List Chunk) {ctx : List Chunk}, chunksOkFrom ctx a → chunksOkFrom (ctx ++ a) b →
      chunksOkFrom ctx (a ++ b)
  | [], ctx, _, hb => by simpa using hb
  | c :: rest, ctx, ha, hb => by
    refine ⟨ha.1, ?_⟩
    refine chunksOkFrom_append rest ha.2 ?_
    have : ctx ++ c :: rest = ctx ++ [c] ++ rest := by simp
    rw [this] at hb
    exact hb

/-- A list of chunks that all carry the same `(pids, headers)` pair is
`chunksOkFrom` any context that validates the pair. -/
theorem chunksOkFrom_const {pids : List Nat} {headers : List String} :
    ∀ (l : List Chunk) {ctx : List Chunk}, pidsHeadersOk ctx pids headers →
      (∀ c ∈ l, c.pids = pids ∧ c.headers = headers) → chunksOkFrom ctx l
  | [], ctx, _, _ => trivial
  | c :: rest, ctx, hok, hl => by
    have hc := hl c (List.mem_cons_self c rest)
    refine ⟨?_, ?_⟩
    · show pidsHeadersOk ctx c.pids c.headers
      rw [hc.1, hc.2]
      exact hok
    · exact chunksOkFrom_const rest
        (pidsHeadersOk_mono (fun x hx => List.mem_append.mpr (Or.inl hx)) hok)
        (fun x hx => hl x (List.mem_cons_of_mem c hx))

theorem addChunk_mem {c : Chunk} {id : Nat} {pids : List Nat} {level : Nat}
    {cnt : List Char} {t : String} {hs : List String} {m : List (String × String)}
    (h : c ∈ addChunk id pids level cnt t hs m) :
    c = ⟨id, pids, level, ⟨cnt⟩, t, hs, m⟩ := by
  unfold addChunk at h
  split at h
  · exact absurd h (List.not_mem_nil c)
  · simpa using h

/-- Every chunk emitted by `addChunk` with a non-`text` type. -/
theorem addChunk_ne_text {id : Nat} {pids : List Nat} {level : Nat} {cnt : List Char}
    {t : String} {hs : List String} {m : List (String × String)} (ht : t ≠ ChunkTypeTEXT) :
    addChunk id pids level cnt t hs m = [⟨id, pids, level, ⟨cnt⟩, t, hs, m⟩] := by
  unfold addChunk
  rw [if_neg]
  intro hx
  exact ht hx.1

/-- The chunks of one emitter all carry the given pids/headers and are not
header chunks. -/
def contentChunksOf (pids : List Nat) (headers : List String) (l : List Chunk) : Prop :=
  ∀ c ∈ l, c.pids = pids ∧ c.headers = headers ∧ c.ctype ≠ ChunkTypeHEADER

theorem contentChunksOf_nil (pids : List Nat) (headers : List String) :
    contentChunksOf pids headers [] := by
  intro c hc
  exact absurd hc (List.not_mem_nil c)

theorem contentChunksOf_append {pids : List Nat} {headers : List String} {a b : List Chunk}
    (ha : contentChunksOf pids headers a) (hb : contentChunksOf pids headers b) :
    contentChunksOf pids headers (a ++ b) := by
  intro c hc
  rcases List.mem_append.mp hc with h | h
  · exact ha c h
  · exact hb c h

theorem contentChunksOf_addChunk (t : String) {pids : List Nat} {headers : List String}
    {id level : Nat} {cnt : List Char} {m : List (String × String)}
    (ht : t ≠ ChunkTypeHEADER) :
    contentChunksOf pids headers (addChunk id pids level cnt t headers m) := by
  intro c hc
  have := addChunk_mem hc
  subst this
  exact ⟨rfl, rfl, ht⟩

theorem contentChunksOf_ite {pids : List Nat} {headers : List String} {c : Prop}
    [Decidable c] {A B : List Chunk} (hA : contentChunksOf pids headers A)
    (hB : contentChunksOf pids headers B) :
    contentChunksOf pids headers (if c then A else B) := by
  split
  · exact hA
  · exact hB

theorem sentenceFold_content (cfg : Config) (pids : List Nat) (level : Nat)
    (headers : List String) :
    ∀ pairs cur id, contentChunksOf pids headers (sentenceFold cfg pids level headers pairs cur id).1
  | [], cur, id => by
    simp only [sentenceFold]
    split
    · exact contentChunksOf_addChunk ChunkTypeTEXT (by decide)
    · exact contentChunksOf_nil pids headers
  | (part, sep) :: rest, cur, id => by
    have ih0 := sentenceFold_content cfg pids level headers rest
    have hflush : ∀ j : Nat, contentChunksOf pids headers
        ((if cur ≠ [] then (addChunk j pids level (pyStrip cur) ChunkTypeTEXT headers [], j + 1)
          else ([], j)) : List Chunk × Nat).1 := by
      intro j
      split
      · exact contentChunksOf_addChunk ChunkTypeTEXT (by decide)
      · exact contentChunksOf_nil pids headers
    simp only [sentenceFold]
    split
    · split
      · exact contentChunksOf_append (contentChunksOf_append (hflush id)
          (contentChunksOf_addChunk ChunkTypeTEXT (by decide))) (ih0 [] _)
      · exact contentChunksOf_append (hflush id) (ih0 (part ++ sep) _)
    · exact ih0 (cur ++ (part ++ sep)) id

theorem lineFold_content (cfg : Config) (pids : List Nat) (level : Nat)
    (headers : List String) :
    ∀ lines buffer id, contentChunksOf pids headers (lineFold cfg pids level headers lines buffer id).1
  | [], buffer, id => by
    simp only [lineFold]
    split
    · exact contentChunksOf_addChunk ChunkTypeTEXT (by decide)
    · exact contentChunksOf_nil pids headers
  | line :: rest, buffer, id => by
    have ih0 := lineFold_content cfg pids level headers rest
    have hflush : ∀ j : Nat, contentChunksOf pids headers
        ((if buffer ≠ [] then (addChunk j pids level (pyStrip buffer) ChunkTypeTEXT headers [], j + 1)
          else ([], j)) : List Chunk × Nat).1 := by
      intro j
      split
      · exact contentChunksOf_addChunk ChunkTypeTEXT (by decide)
      · exact contentChunksOf_nil pids headers
    simp only [lineFold]
    split
    · split
      · exact contentChunksOf_append (contentChunksOf_append (hflush id)
          (sentenceFold_content cfg pids level headers _ [] _)) (ih0 [] _)
      · exact contentChunksOf_append (hflush id) (ih0 line _)
    · exact ih0 (buffer ++ line) id

theorem handleTextSplittingHierarchical_content (cfg : Config) (pids : List Nat) (level : Nat)
    (headers : List String) (text : List Char) (id : Nat) :
    contentChunksOf pids headers (handleTextSplittingHierarchical cfg pids level headers text id).1 := by
  unfold handleTextSplittingHierarchical
  split
  · exact contentChunksOf_nil pids headers
  · split
    · exact contentChunksOf_addChunk ChunkTypeTEXT (by decide)
    · exact lineFold_content cfg pids level headers _ [] id

theorem flushTextBuffer_content (cfg : Config) (pids : List Nat) (level : Nat)
    (headers : List String) (buffer : List (List Char)) (id : Nat) :
    contentChunksOf pids headers (flushTextBuffer cfg pids level headers buffer id).1 := by
  unfold flushTextBuffer
  split
  · exact contentChunksOf_nil pids headers
  · exact handleTextSplittingHierarchical_content cfg pids level headers _ id

theorem emitSpans_content (cfg : Config) (pids : List Nat) (level : Nat)
    (headers : List String) (blockText : List Char) :
    ∀ spans cursor id, contentChunksOf pids headers (emitSpans cfg pids level headers blockText spans cursor id).1
  | [], cursor, id => by
    simp only [emitSpans]
    split
    · exact handleTextSplittingHierarchical_content cfg pids level headers _ id
    · exact contentChunksOf_nil pids headers
  | sp :: rest, cursor, id => by
    have ih0 := emitSpans_content cfg pids level headers blockText rest
    have hpre : contentChunksOf pids headers ((if cursor < sp.start then
        handleTextSplittingHierarchical cfg pids level headers
          (pySlice blockText cursor sp.start) id
      else ([], id)) : List Chunk × Nat).1 := by
      split
      · exact handleTextSplittingHierarchical_content cfg pids level headers _ id
      · exact contentChunksOf_nil pids headers
    simp only [emitSpans]
    exact contentChunksOf_append (contentChunksOf_append hpre
      (contentChunksOf_addChunk ChunkTypeIMAGE (by decide))) (ih0 sp.stop _)

theorem handleMixedContentRobust_content (cfg : Config) (blockText : List Char)
    (inlineTokens : List Token) (pids : List Nat) (level : Nat) (headers : List String)
    (id : Nat) :
    contentChunksOf pids headers (handleMixedContentRobust cfg blockText inlineTokens pids level headers id).1 :=
  emitSpans_content cfg pids level headers blockText _ 0 id

theorem handleHtmlBlock_content (cfg : Config) (content : List Char) (pids : List Nat)
    (level : Nat) (headers : List String) (id : Nat) :
    contentChunksOf pids headers (handleHtmlBlock cfg content pids level headers id).1 := by
  unfold handleHtmlBlock
  split
  · exact contentChunksOf_addChunk ChunkTypeHTML_IMAGE (by decide)
  · split
    · exact contentChunksOf_addChunk ChunkTypeHTML_TABLE (by decide)
    · split
      · exact contentChunksOf_addChunk ChunkTypeHTML_CODE (by decide)
      · exact handleTextSplittingHierarchical_content cfg pids level headers content id

theorem processContentAux_content (cfg : Config) (sourceLines : List String) (pids : List Nat)
    (level : Nat) (headers : List String) (toks : List Token) :
    ∀ fuel i buf id,
      contentChunksOf pids headers (processContentAux cfg sourceLines pids level headers toks fuel i buf id).1
  | 0, _, buf, id => flushTextBuffer_content cfg pids level headers buf id
  | fuel + 1, i, buf, id => by
    have ih0 := processContentAux_content cfg sourceLines pids level headers toks fuel
    simp only [processContentAux]
    split
    · split
      · exact contentChunksOf_append (contentChunksOf_append
          (flushTextBuffer_content cfg pids level headers buf id)
          (contentChunksOf_addChunk ChunkTypeCODE (by decide))) (ih0 _ [] _)
      · split
        · exact contentChunksOf_append (contentChunksOf_append
            (flushTextBuffer_content cfg pids level headers buf id)
            (contentChunksOf_addChunk ChunkTypeTABLE (by decide))) (ih0 _ [] _)
        · split
          · split
            · exact contentChunksOf_append (contentChunksOf_append
                (flushTextBuffer_content cfg pids level headers buf id)
                (handleHtmlBlock_content cfg _ pids level headers _)) (ih0 _ [] _)
            · exact ih0 _ _ id
          · split
            · split
              · split
                · split
                  · exact contentChunksOf_append (contentChunksOf_append
                      (flushTextBuffer_content cfg pids level headers buf id)
                      (handleMixedContentRobust_content cfg _ _ pids level headers _)) (ih0 _ [] _)
                  · exact ih0 _ _ id
                · exact ih0 _ _ id
              · exact ih0 _ _ id
            · exact ih0 _ _ id
    · exact flushTextBuffer_content cfg pids level headers buf id

theorem processSectionContent_content (cfg : Config) (sourceLines : List String)
    (pids : List Nat) (level : Nat) (headers : List String) (toks : List Token) (id : Nat) :
    contentChunksOf pids headers (processSectionContent cfg sourceLines pids level headers toks id).1 :=
  processContentAux_content cfg sourceLines pids level headers toks _ 0 [] id


/-- The state-threading fold preserves `chunksOkFrom` when every work item
does, relative to any context validating the fixed `(pids, headers)` pair. -/
theorem chunksOkFrom_foldl {α : Type} {pp : List Nat} {ph : List String}
    (f : α → Nat → List Chunk × Nat)
    (hf : ∀ a id ctx2, pidsHeadersOk ctx2 pp ph → chunksOkFrom ctx2 (f a id).1) :
    ∀ (l : List α) (acc : List Chunk × Nat) (ctx : List Chunk),
      chunksOkFrom ctx acc.1 → pidsHeadersOk ctx pp ph →
      chunksOkFrom ctx (l.foldl (fun acc a => ((acc.1 ++ (f a acc.2).1, (f a acc.2).2) : List Chunk × Nat)) acc).1 := by
  intro l
  induction l with
  | nil => intro acc ctx hacc _; exact hacc
  | cons a rest ih =>
    intro acc ctx hacc hph
    refine ih _ ctx ?_ hph
    exact chunksOkFrom_append acc.1 hacc
      (hf a acc.2 (ctx ++ acc.1) (pidsHeadersOk_mono (fun x hx => List.mem_append.mpr (Or.inl hx)) hph))

theorem processNodeRecursively_chunksOk (cfg : Config) (sourceLines : List String) :
    ∀ fuel node parentPids parentHeaders id ctx,
      pidsHeadersOk ctx parentPids parentHeaders →
      chunksOkFrom ctx (processNodeRecursively cfg sourceLines fuel node parentPids parentHeaders id).1
  | 0, _, _, _, _, _, _ => trivial
  | fuel + 1, SNode.node level rawTitle stoks children, pp, ph, id, ctx, hok => by
    have ih0 : ∀ (child : SNode) (j : Nat) (ctx2 : List Chunk),
        pidsHeadersOk ctx2 (pp ++ [id]) (ph ++ [rawTitle]) →
        chunksOkFrom ctx2 (processNodeRecursively cfg sourceLines fuel child (pp ++ [id]) (ph ++ [rawTitle]) j).1 :=
      fun child j ctx2 h2 => processNodeRecursively_chunksOk cfg sourceLines fuel child _ _ j ctx2 h2
    simp only [processNodeRecursively]
    rw [addChunk_ne_text (by decide)]
    set hch : Chunk := ⟨id, pp, level, ⟨rawTitle.toList⟩, ChunkTypeHEADER, ph, []⟩ with hhch
    have hokNew : pidsHeadersOk (ctx ++ [hch]) (pp ++ [id]) (ph ++ [rawTitle]) := by
      constructor
      · simp [hok.1]
      · intro _
        refine ⟨hch, List.mem_append.mpr (Or.inr (List.mem_singleton.mpr rfl)), rfl, ?_, ?_, ?_⟩
        · simp
        · exact List.prefix_append ph [rawTitle]
        · intro heq
          have := congrArg List.length heq
          simp at this
    have hcontent : chunksOkFrom (ctx ++ [hch])
        ((if stoks ≠ [] then
          processSectionContent cfg sourceLines (pp ++ [id]) level (ph ++ [rawTitle]) stoks (id + 1)
        else ([], id + 1)) : List Chunk × Nat).1 := by
      split
      · exact chunksOkFrom_const _ hokNew
          (fun c hc => ⟨(processSectionContent_content cfg sourceLines _ level _ stoks (id + 1) c hc).1,
            (processSectionContent_content cfg sourceLines _ level _ stoks (id + 1) c hc).2.1⟩)
      · trivial
    refine chunksOkFrom_append _ ?_ ?_
    · refine chunksOkFrom_append [hch] ?_ hcontent
      exact ⟨hok, trivial⟩
    · refine chunksOkFrom_foldl _ ih0 children ([], _) _ trivial ?_
      refine pidsHeadersOk_mono (fun x hx => ?_) hokNew
      simp only [List.mem_append] at hx ⊢
      tauto

theorem split_chunksOk (cfg : Config) (tokens : List Token) (sourceLines : List String)
    (id0 : Nat) : chunksOkFrom [] (split cfg tokens sourceLines id0).1 := by
  unfold split
  have hempty : ∀ ctx : List Chunk, pidsHeadersOk ctx ([] : List Nat) ([] : List String) :=
    fun ctx => ⟨rfl, fun h => absurd rfl h⟩
  have hroot : chunksOkFrom [] ((if (buildSectionTree cfg tokens sourceLines).toks ≠ [] then
      processSectionContent cfg sourceLines [] 0 [] (buildSectionTree cfg tokens sourceLines).toks id0
    else ([], id0)) : List Chunk × Nat).1 := by
    split
    · exact chunksOkFrom_const _ (hempty [])
        (fun c hc => ⟨(processSectionContent_content cfg sourceLines [] 0 [] _ id0 c hc).1,
          (processSectionContent_content cfg sourceLines [] 0 [] _ id0 c hc).2.1⟩)
    · trivial
  refine chunksOkFrom_append _ hroot ?_
  refine chunksOkFrom_foldl _
    (fun child j ctx2 h2 => processNodeRecursively_chunksOk cfg sourceLines _ child [] [] j ctx2 h2)
    _ ([], _) _ trivial (hempty _)

/-- `chunksOkFrom` read off positionally. -/
theorem chunksOkFrom_getD :
    ∀ (l : List Chunk) (ctx : List Chunk), chunksOkFrom ctx l →
      ∀ j, j < l.length → chunkOk (ctx ++ l.take j) (l.getD j dummyChunk)
  | [], _, _, j, hj => absurd hj (by simp)
  | c :: rest, ctx, h, 0, _ => by simpa using h.1
  | c :: rest, ctx, h, j + 1, hj => by
    have := chunksOkFrom_getD rest (ctx ++ [c]) h.2 j (by simpa using hj)
    simpa [List.append_assoc] using this

/-- A member of a `take` prefix sits at an earlier index. -/
theorem mem_take_getD {h : Chunk} :
    ∀ (l : List Chunk) (j : Nat), h ∈ l.take j → ∃ k, k < j ∧ l.getD k dummyChunk = h
  | [], j, hm => absurd hm (by simp)
  | c :: rest, 0, hm => absurd hm (by simp)
  | c :: rest, j + 1, hm => by
    rcases List.mem_cons.mp (by simpa using hm) with h1 | h1
    · exact ⟨0, Nat.succ_pos j, h1.symm⟩
    · obtain ⟨k, hk, he⟩ := mem_take_getD rest j h1
      exact ⟨k + 1, Nat.succ_lt_succ hk, by simpa using he⟩


/-- C3: for every chunk of a `split` run, `len(pids) == len(headers)`; and
when `pids` is non-empty its last element is the id of a previously emitted
chunk (strictly earlier in emission order, so the header's id was allocated
before its section's content and descendants) of type `header` whose own
`headers` list is a strict prefix of this chunk's `headers`. -/
theorem c3_parent_chain (cfg : Config) (tokens : List Token) (sourceLines : List String)
    (j : Nat) (hj : j < (split cfg tokens sourceLines 1).1.length) :
    ((split cfg tokens sourceLines 1).1.getD j dummyChunk).pids.length
      = ((split cfg tokens sourceLines 1).1.getD j dummyChunk).headers.length ∧
    (((split cfg tokens sourceLines 1).1.getD j dummyChunk).pids ≠ [] →
      ∃ k, k < j ∧
        ((split cfg tokens sourceLines 1).1.getD k dummyChunk).ctype = ChunkTypeHEADER ∧
        ((split cfg tokens sourceLines 1).1.getD j dummyChunk).pids.getLast?
          = some ((split cfg tokens sourceLines 1).1.getD k dummyChunk).id ∧
        ((split cfg tokens sourceLines 1).1.getD k dummyChunk).headers
          <+: ((split cfg tokens sourceLines 1).1.getD j dummyChunk).headers ∧
        ((split cfg tokens sourceLines 1).1.getD k dummyChunk).headers
          ≠ ((split cfg tokens sourceLines 1).1.getD j dummyChunk).headers) := by
  have h := chunksOkFrom_getD (split cfg tokens sourceLines 1).1 []
    (split_chunksOk cfg tokens sourceLines 1) j hj
  simp only [List.nil_append] at h
  refine ⟨h.1, fun hne => ?_⟩
  obtain ⟨hd, hmem, hct, hlast, hpre, hne2⟩ := h.2 hne
  obtain ⟨k, hk, heq⟩ := mem_take_getD (split cfg tokens sourceLines 1).1 j hmem
  rw [← heq] at hct hlast hpre hne2
  exact ⟨k, hk, hct, hlast, hpre, hne2⟩

/-- Witness for `c3_parent_chain`: the text chunk (index 1) of
`"# T\nhello."` points back at the header chunk (index 0). -/
theorem c3_parent_chain_witness :
    ∃ k, k < 1 ∧
      ((split cfg500 toksHP linesHP 1).1.getD k dummyChunk).ctype = ChunkTypeHEADER ∧
      ((split cfg500 toksHP linesHP 1).1.getD 1 dummyChunk).pids.getLast?
        = some ((split cfg500 toksHP linesHP 1).1.getD k dummyChunk).id ∧
      ((split cfg500 toksHP linesHP 1).1.getD k dummyChunk).headers
        <+: ((split cfg500 toksHP linesHP 1).1.getD 1 dummyChunk).headers ∧
      ((split cfg500 toksHP linesHP 1).1.getD k dummyChunk).headers
        ≠ ((split cfg500 toksHP linesHP 1).1.getD 1 dummyChunk).headers :=
  (c3_parent_chain cfg500 toksHP linesHP 1 (by decide)).2 (by decide)


/-! ## Claim C6: headings beyond the level limit form no section -/

theorem mergeFrame_levelsOk {lim : Nat} {f g : Frame} (hf : FrameLevelsOk lim f)
    (hg : FrameLevelsOk lim g) : FrameLevelsOk lim (mergeFrame f g) := by
  refine ⟨hg.1, ?_⟩
  intro c hc
  simp only [mergeFrame] at hc
  rcases List.mem_append.mp hc with h | h
  · exact hg.2 c h
  · rw [List.mem_singleton.mp h]
    exact TreeLevelsLe.mk hf.1 hf.2

theorem popWhile_levelsOk {lim : Nat} (level : Nat) :
    ∀ (anc : List Frame) (f : Frame), FrameLevelsOk lim f → (∀ g ∈ anc, FrameLevelsOk lim g) →
      FrameLevelsOk lim (popWhile level f anc).1 ∧ ∀ g ∈ (popWhile level f anc).2, FrameLevelsOk lim g
  | [], f, hf, _ => by
    simp only [popWhile]
    exact ⟨hf, fun g hg => absurd hg (List.not_mem_nil g)⟩
  | g :: rest, f, hf, hanc => by
    simp only [popWhile]
    split
    · exact popWhile_levelsOk level rest (mergeFrame f g)
        (mergeFrame_levelsOk hf (hanc g (List.mem_cons_self g rest)))
        (fun x hx => hanc x (List.mem_cons_of_mem g hx))
    · exact ⟨hf, hanc⟩

theorem collapseAll_levelsOk {lim : Nat} :
    ∀ (anc : List Frame) (f : Frame), FrameLevelsOk lim f → (∀ g ∈ anc, FrameLevelsOk lim g) →
      FrameLevelsOk lim (collapseAll f anc)
  | [], f, hf, _ => hf
  | g :: rest, f, hf, hanc =>
    collapseAll_levelsOk rest (mergeFrame f g)
      (mergeFrame_levelsOk hf (hanc g (List.mem_cons_self g rest)))
      (fun x hx => hanc x (List.mem_cons_of_mem g hx))

theorem pushToken_levelsOk {lim : Nat} {f : Frame} {t : Token} (hf : FrameLevelsOk lim f) :
    FrameLevelsOk lim (f.pushToken t) :=
  ⟨hf.1, hf.2⟩

theorem buildAux_levelsOk (cfg : Config) (sourceLines : List String) :
    ∀ fuel toks (f : Frame) (anc : List Frame),
      FrameLevelsOk cfg.heading_level_limit f →
      (∀ g ∈ anc, FrameLevelsOk cfg.heading_level_limit g) →
      FrameLevelsOk cfg.heading_level_limit (buildAux cfg sourceLines fuel toks f anc)
  | 0, toks, f, anc, hf, hanc => collapseAll_levelsOk anc f hf hanc
  | _ + 1, [], f, anc, hf, hanc => collapseAll_levelsOk anc f hf hanc
  | fuel + 1, t :: rest, f, anc, hf, hanc => by
    simp only [buildAux]
    split
    · split
      · rename_i hlev
        have hp := popWhile_levelsOk (tagLevel t.tag) anc f hf hanc
        refine buildAux_levelsOk cfg sourceLines fuel _ _ _
          ⟨hlev, fun c hc => absurd hc (List.not_mem_nil c)⟩ ?_
        intro g hg
        rcases List.mem_cons.mp hg with h | h
        · rw [h]; exact hp.1
        · exact hp.2 g h
      · exact buildAux_levelsOk cfg sourceLines fuel rest _ anc (pushToken_levelsOk hf) hanc
    · exact buildAux_levelsOk cfg sourceLines fuel rest _ anc (pushToken_levelsOk hf) hanc

theorem buildSectionTree_levelsLe (cfg : Config) (tokens : List Token)
    (sourceLines : List String) :
    TreeLevelsLe cfg.heading_level_limit (buildSectionTree cfg tokens sourceLines) := by
  unfold buildSectionTree
  have h := buildAux_levelsOk cfg sourceLines (tokens.length + 1) tokens ⟨0, "", [], []⟩ []
    ⟨Nat.zero_le _, fun c hc => absurd hc (List.not_mem_nil c)⟩
    (fun g hg => absurd hg (List.not_mem_nil g))
  exact TreeLevelsLe.mk h.1 h.2

/-- Membership fold lemma: a per-chunk property holding for every work item's
output and for the accumulator holds for the fold. -/
theorem foldl_mem_prop {α : Type} (f : α → Nat → List Chunk × Nat) (P : Chunk → Prop) :
    ∀ (l : List α), (∀ a ∈ l, ∀ id, ∀ c ∈ (f a id).1, P c) →
      ∀ (acc : List Chunk × Nat), (∀ c ∈ acc.1, P c) →
      ∀ c ∈ (l.foldl (fun acc a => ((acc.1 ++ (f a acc.2).1, (f a acc.2).2) : List Chunk × Nat)) acc).1, P c := by
  intro l
  induction l with
  | nil => intro _ acc hacc; exact hacc
  | cons a rest ih =>
    intro hl acc hacc
    refine ih (fun x hx => hl x (List.mem_cons_of_mem a hx)) _ ?_
    intro c hc
    rcases List.mem_append.mp hc with h | h
    · exact hacc c h
    · exact hl a (List.mem_cons_self a rest) acc.2 c h

theorem processNodeRecursively_headerLevel (cfg : Config) (sourceLines : List String)
    (lim : Nat) :
    ∀ fuel node parentPids parentHeaders id, TreeLevelsLe lim node →
      ∀ c ∈ (processNodeRecursively cfg sourceLines fuel node parentPids parentHeaders id).1,
        c.ctype = ChunkTypeHEADER → c.level ≤ lim
  | 0, _, _, _, _, _ => by
    intro c hc
    exact absurd hc (List.not_mem_nil c)
  | fuel + 1, SNode.node level rawTitle stoks children, pp, ph, id, htree => by
    cases htree with
    | mk hlev hch =>
      intro c hc hct
      simp only [processNodeRecursively] at hc
      rcases List.mem_append.mp hc with hmem | hmem
      · rcases List.mem_append.mp hmem with hmem2 | hmem2
        · have := addChunk_mem hmem2
          subst this
          exact hlev
        · revert hmem2
          generalize hcnt : ((if stoks ≠ [] then
              processSectionContent cfg sourceLines (pp ++ [id]) level (ph ++ [rawTitle]) stoks (id + 1)
            else ([], id + 1)) : List Chunk × Nat) = cnt
          intro hmem2
          have hc2 : contentChunksOf (pp ++ [id]) (ph ++ [rawTitle]) cnt.1 := by
            rw [← hcnt]
            split
            · exact processSectionContent_content cfg sourceLines _ level _ stoks (id + 1)
            · exact contentChunksOf_nil _ _
          exact absurd hct (hc2 c hmem2).2.2
      · refine foldl_mem_prop _ (fun c => c.ctype = ChunkTypeHEADER → c.level ≤ lim) children
          ?_ _ (fun c hc0 => absurd hc0 (List.not_mem_nil c)) c hmem hct
        intro child hchild j c2 hc2 hct2
        exact processNodeRecursively_headerLevel cfg sourceLines lim fuel child _ _ j
          (hch child hchild) c2 hc2 hct2

theorem split_headerLevel (cfg : Config) (tokens : List Token) (sourceLines : List String)
    (id0 : Nat) :
    ∀ c ∈ (split cfg tokens sourceLines id0).1,
      c.ctype = ChunkTypeHEADER → c.level ≤ cfg.heading_level_limit := by
  intro c hc hct
  have htree := buildSectionTree_levelsLe cfg tokens sourceLines
  unfold split at hc
  rcases List.mem_append.mp hc with hmem | hmem
  · revert hmem
    generalize hcnt : ((if (buildSectionTree cfg tokens sourceLines).toks ≠ [] then
        processSectionContent cfg sourceLines [] 0 [] (buildSectionTree cfg tokens sourceLines).toks id0
      else ([], id0)) : List Chunk × Nat) = cnt
    intro hmem
    have hc2 : contentChunksOf ([] : List Nat) ([] : List String) cnt.1 := by
      rw [← hcnt]
      split
      · exact processSectionContent_content cfg sourceLines [] 0 [] _ id0
      · exact contentChunksOf_nil _ _
    exact absurd hct (hc2 c hmem).2.2
  · have hchilds : ∀ n ∈ (buildSectionTree cfg tokens sourceLines).childs, TreeLevelsLe cfg.heading_level_limit n := by
      revert htree
      generalize buildSectionTree cfg tokens sourceLines = root
      intro htree
      cases htree with
      | mk h1 h2 => exact h2
    refine foldl_mem_prop _ (fun c => c.ctype = ChunkTypeHEADER → c.level ≤ cfg.heading_level_limit)
      _ ?_ _ (fun x hx => absurd hx (List.not_mem_nil x)) c hmem hct
    intro child hchild j c2 hc2 hct2
    exact processNodeRecursively_headerLevel cfg sourceLines cfg.heading_level_limit _ child [] [] j
      (hchilds child hchild) c2 hc2 hct2

/-- C6: a heading deeper than `heading_level_limit` opens no section and
produces no `header` chunk — every `header` chunk's level is at most the
limit — and in the concrete depth-4 example with limit 3 the whole document
becomes one `text` chunk in which the literal `"#### Deep"` line appears
verbatim. -/
theorem c6_deep_heading_inert :
    (∀ (cfg : Config) (tokens : List Token) (sourceLines : List String) (id0 : Nat),
      ∀ c ∈ (split cfg tokens sourceLines id0).1,
        c.ctype = ChunkTypeHEADER → c.level ≤ cfg.heading_level_limit) ∧
    split cfg3 toksH4 linesH4 1 =
      ([⟨1, [], 0, "text before\n\n#### Deep\n\ntext after", "text", [], []⟩], 2) ∧
    "#### Deep".toList <:+: "text before\n\n#### Deep\n\ntext after".toList :=
  ⟨split_headerLevel, by decide, by decide⟩

/-- Witness for `c6_deep_heading_inert` at the document `"# T\nhello."`. -/
theorem c6_deep_heading_inert_witness :
    ((split cfg500 toksHP linesHP 1).1.getD 0 dummyChunk).level ≤ cfg500.heading_level_limit :=
  c6_deep_heading_inert.1 cfg500 toksHP linesHP 1
    ((split cfg500 toksHP linesHP 1).1.getD 0 dummyChunk) (by decide) (by decide)


/-! ## Claim C10: levels strictly increase along tree paths -/

theorem mergeFrame_strict {f g : Frame} (hf : FrameStrict f) (hg : FrameStrict g)
    (hlt : g.level < f.level) : FrameStrict (mergeFrame f g) := by
  intro c hc
  simp only [mergeFrame] at hc
  rcases List.mem_append.mp hc with h | h
  · exact hg c h
  · rw [List.mem_singleton.mp h]
    exact ⟨hlt, StrictTree.mk (fun x hx => (hf x hx).1) (fun x hx => (hf x hx).2)⟩

theorem popWhile_strict {L : Nat} (hL : 1 ≤ L) :
    ∀ (anc : List Frame) (f : Frame), stackLevels (f :: anc) → FrameStrict f →
      (∀ g ∈ anc, FrameStrict g) →
      stackLevels ((popWhile L f anc).1 :: (popWhile L f anc).2) ∧
      FrameStrict (popWhile L f anc).1 ∧ (∀ g ∈ (popWhile L f anc).2, FrameStrict g) ∧
      (popWhile L f anc).1.level < L
  | [], f, hs, hf, _ => by
    simp only [popWhile]
    refine ⟨hs, hf, fun g hg => absurd hg (List.not_mem_nil g), ?_⟩
    have h0 : f.level = 0 := hs
    rw [h0]
    exact hL
  | g :: rest, f, hs, hf, hanc => by
    simp only [popWhile]
    split
    · have hsm : stackLevels (mergeFrame f g :: rest) := by
        cases rest with
        | nil => exact hs.2
        | cons r rr => exact hs.2
      exact popWhile_strict hL rest (mergeFrame f g) hsm
        (mergeFrame_strict hf (hanc g (List.mem_cons_self g rest)) hs.1)
        (fun x hx => hanc x (List.mem_cons_of_mem g hx))
    · rename_i hnle
      exact ⟨hs, hf, hanc, Nat.lt_of_not_le hnle⟩

theorem collapseAll_strict :
    ∀ (anc : List Frame) (f : Frame), stackLevels (f :: anc) → FrameStrict f →
      (∀ g ∈ anc, FrameStrict g) → FrameStrict (collapseAll f anc)
  | [], _, _, hf, _ => hf
  | g :: rest, f, hs, hf, hanc => by
    have hsm : stackLevels (mergeFrame f g :: rest) := by
      cases rest with
      | nil => exact hs.2
      | cons r rr => exact hs.2
    exact collapseAll_strict rest (mergeFrame f g) hsm
      (mergeFrame_strict hf (hanc g (List.mem_cons_self g rest)) hs.1)
      (fun x hx => hanc x (List.mem_cons_of_mem g hx))

theorem dropHeading_subset (l : List Token) :
    ∀ tok ∈ dropHeading l, tok ∈ l := by
  intro tok htok
  unfold dropHeading at htok
  exact (List.dropWhile_sublist _).subset ((List.drop_sublist 1 _).subset htok)

theorem stackLevels_push {f : Frame} {t : Token} :
    ∀ anc, stackLevels (f :: anc) → stackLevels (f.pushToken t :: anc)
  | [], hs => hs
  | a :: rest, hs => ⟨hs.1, hs.2⟩

theorem buildAux_strict (cfg : Config) (sourceLines : List String) :
    ∀ fuel toks (f : Frame) (anc : List Frame),
      (∀ tok ∈ toks, tok.ttype = "heading_open" → 1 ≤ tagLevel tok.tag) →
      stackLevels (f :: anc) → FrameStrict f → (∀ g ∈ anc, FrameStrict g) →
      FrameStrict (buildAux cfg sourceLines fuel toks f anc)
  | 0, toks, f, anc, _, hs, hf, hanc => collapseAll_strict anc f hs hf hanc
  | _ + 1, [], f, anc, _, hs, hf, hanc => collapseAll_strict anc f hs hf hanc
  | fuel + 1, t :: rest, f, anc, htoks, hs, hf, hanc => by
    simp only [buildAux]
    split
    · rename_i hht
      split
      · have hL : 1 ≤ tagLevel t.tag := htoks t (List.mem_cons_self t rest) hht
        have hp := popWhile_strict hL anc f hs hf hanc
        refine buildAux_strict cfg sourceLines fuel _ _ _ ?_ ?_ ?_ ?_
        · exact fun tok htok => htoks tok (dropHeading_subset (t :: rest) tok htok)
        · exact ⟨hp.2.2.2, hp.1⟩
        · exact fun c hc => absurd hc (List.not_mem_nil c)
        · intro g hg
          rcases List.mem_cons.mp hg with h | h
          · rw [h]; exact hp.2.1
          · exact hp.2.2.1 g h
      · exact buildAux_strict cfg sourceLines fuel rest _ anc
          (fun tok htok h2 => htoks tok (List.mem_cons_of_mem t htok) h2)
          (stackLevels_push anc hs) hf hanc
    · exact buildAux_strict cfg sourceLines fuel rest _ anc
        (fun tok htok h2 => htoks tok (List.mem_cons_of_mem t htok) h2)
        (stackLevels_push anc hs) hf hanc

/-- C10: when every `heading_open` token carries a positive depth (the
tokenizer emits `h1`..`h6`), every non-root node of the section tree has a
level strictly greater than its parent's, so heading levels strictly
increase along every root-to-leaf path. -/
theorem c10_tree_levels_strict (cfg : Config) (tokens : List Token)
    (sourceLines : List String)
    (h : ∀ tok ∈ tokens, tok.ttype = "heading_open" → 1 ≤ tagLevel tok.tag) :
    StrictTree (buildSectionTree cfg tokens sourceLines) := by
  unfold buildSectionTree
  have hb := buildAux_strict cfg sourceLines (tokens.length + 1) tokens ⟨0, "", [], []⟩ [] h
    rfl (fun c hc => absurd hc (List.not_mem_nil c)) (fun g hg => absurd hg (List.not_mem_nil g))
  exact StrictTree.mk (fun c hc => (hb c hc).1) (fun c hc => (hb c hc).2)

/-- Witness for `c10_tree_levels_strict` at the document `"# A\n## B"`. -/
theorem c10_tree_levels_strict_witness :
    StrictTree (buildSectionTree cfg500 toksH1H2 linesH1H2) :=
  c10_tree_levels_strict cfg500 toksH1H2 linesH1H2 (by decide)


/-! ## Claim C5: the splitter never drops non-whitespace content -/

/-- A non-whitespace character survives `dropWhile isStripChar`. -/
theorem mem_dropWhile_of_not {p : Char → Bool} {c : Char} :
    ∀ {l : List Char}, c ∈ l → p c = false → c ∈ l.dropWhile p := by
  intro l
  induction l with
  | nil => intro hc _; exact absurd hc (List.not_mem_nil c)
  | cons a rest ih =>
    intro hc hp
    by_cases hpa : p a = true
    · rw [List.dropWhile_cons_of_pos hpa]
      rcases List.mem_cons.mp hc with h | h
      · rw [h] at hp; rw [hp] at hpa; cases hpa
      · exact ih h hp
    · rw [List.dropWhile_cons_of_neg hpa]
      exact hc

/-- A non-whitespace character survives Python `strip`. -/
theorem mem_pyStrip {c : Char} {l : List Char} (hc : c ∈ l)
    (hp : isStripChar c = false) : c ∈ pyStrip l := by
  unfold pyStrip
  rw [List.mem_reverse]
  exact mem_dropWhile_of_not (List.mem_reverse.mpr (mem_dropWhile_of_not hc hp)) hp

theorem pyStrip_ne_nil {l : List Char} (h : ∃ c ∈ l, isStripChar c = false) :
    pyStrip l ≠ [] := by
  obtain ⟨c, hc, hp⟩ := h
  exact List.ne_nil_of_mem (mem_pyStrip hc hp)

/-- A text `addChunk` whose raw content has a non-whitespace character is
kept. -/
theorem addChunk_ne_nil {id : Nat} {pids : List Nat} {level : Nat} {cnt : List Char}
    {t : String} {hs : List String} {m : List (String × String)}
    (h : ∃ c ∈ cnt, isStripChar c = false) :
    addChunk id pids level cnt t hs m ≠ [] := by
  unfold addChunk
  split
  · rename_i hcond
    obtain ⟨c, hc, hp⟩ := h
    exact absurd hcond.2 (List.ne_nil_of_mem (mem_pyStrip hc hp))
  · simp

/-- `splitlines(keepends=True)` concatenates back to the input. -/
theorem splitlinesKE_join (cs cur : List Char) :
    (splitlinesKE cs cur).flatten = cur.reverse ++ cs := by
  induction cs, cur using splitlinesKE.induct <;> simp_all [splitlinesKE]

/-- `re.split` with a captured delimiter concatenates back to the input. -/
theorem sentenceSplitAux_join :
    ∀ (cs cur : List Char), (sentenceSplitAux cs cur).flatten = cur.reverse ++ cs
  | [], cur => by simp [sentenceSplitAux]
  | c :: rest, cur => by
    simp only [sentenceSplitAux]
    split
    · simp only [List.flatten]
      rw [sentenceSplitAux_join rest []]
      simp
    · rw [sentenceSplitAux_join rest (c :: cur)]
      simp

/-- The `(part, sep)` pairs concatenate back to the parts. -/
theorem pairUp_join :
    ∀ (parts : List (List Char)),
      ((pairUp parts).map (fun pr => pr.1 ++ pr.2)).flatten = parts.flatten
  | [] => rfl
  | [p] => by simp [pairUp]
  | p :: sep :: rest => by
    simp only [pairUp, List.map, List.flatten]
    rw [pairUp_join rest]
    simp

theorem sentenceFold_ne_nil (cfg : Config) (pids : List Nat) (level : Nat)
    (headers : List String) :
    ∀ pairs cur id,
      (∃ c, (c ∈ cur ∨ ∃ pr ∈ pairs, c ∈ pr.1 ++ pr.2) ∧ isStripChar c = false) →
      (sentenceFold cfg pids level headers pairs cur id).1 ≠ []
  | [], cur, id, h => by
    obtain ⟨c, hc, hp⟩ := h
    have hcur : c ∈ cur := by
      rcases hc with h | ⟨pr, hpr, _⟩
      · exact h
      · exact absurd hpr (List.not_mem_nil pr)
    simp only [sentenceFold]
    rw [if_pos (List.ne_nil_of_mem hcur)]
    exact addChunk_ne_nil ⟨c, mem_pyStrip hcur hp, hp⟩
  | (part, sep) :: rest, cur, id, h => by
    have ih0 := sentenceFold_ne_nil cfg pids level headers rest
    obtain ⟨c, hc, hp⟩ := h
    simp only [sentenceFold]
    split
    · rcases hc with hcur | ⟨pr, hpr, hmem⟩
      · have hne : cur ≠ [] := List.ne_nil_of_mem hcur
        rw [if_pos hne]
        have h1 : addChunk id pids level (pyStrip cur) ChunkTypeTEXT headers [] ≠ [] :=
          addChunk_ne_nil ⟨c, mem_pyStrip hcur hp, hp⟩
        split
        · intro heq
          rcases List.append_eq_nil.mp heq with ⟨heq1, _⟩
          rcases List.append_eq_nil.mp heq1 with ⟨heq2, _⟩
          exact h1 heq2
        · intro heq
          rcases List.append_eq_nil.mp heq with ⟨heq1, _⟩
          exact h1 heq1
      · rcases List.mem_cons.mp hpr with hpr1 | hpr2
        · have hseg : c ∈ part ++ sep := by rw [hpr1] at hmem; exact hmem
          split
          · intro heq
            rcases List.append_eq_nil.mp heq with ⟨heq1, _⟩
            rcases List.append_eq_nil.mp heq1 with ⟨_, heq3⟩
            exact addChunk_ne_nil ⟨c, mem_pyStrip hseg hp, hp⟩ heq3
          · intro heq
            rcases List.append_eq_nil.mp heq with ⟨_, heq2⟩
            exact ih0 (part ++ sep) _ ⟨c, Or.inl hseg, hp⟩ heq2
        · split
          · intro heq
            rcases List.append_eq_nil.mp heq with ⟨_, heq2⟩
            exact ih0 [] _ ⟨c, Or.inr ⟨pr, hpr2, hmem⟩, hp⟩ heq2
          · intro heq
            rcases List.append_eq_nil.mp heq with ⟨_, heq2⟩
            exact ih0 (part ++ sep) _ ⟨c, Or.inr ⟨pr, hpr2, hmem⟩, hp⟩ heq2
    · refine ih0 (cur ++ (part ++ sep)) id ⟨c, ?_, hp⟩
      rcases hc with hcur | ⟨pr, hpr, hmem⟩
      · exact Or.inl (List.mem_append_left _ hcur)
      · rcases List.mem_cons.mp hpr with hpr1 | hpr2
        · refine Or.inl (List.mem_append_right _ ?_)
          rw [hpr1] at hmem
          exact hmem
        · exact Or.inr ⟨pr, hpr2, hmem⟩

theorem handleSentenceSplitting_ne_nil (cfg : Config) (pids : List Nat) (level : Nat)
    (headers : List String) (text : List Char) (id : Nat)
    (h : ∃ c ∈ text, isStripChar c = false) :
    (handleSentenceSplitting cfg pids level headers text id).1 ≠ [] := by
  obtain ⟨c, hc, hp⟩ := h
  unfold handleSentenceSplitting
  refine sentenceFold_ne_nil cfg pids level headers _ [] id ⟨c, Or.inr ?_, hp⟩
  have h1 : (sentenceSplitParts text).flatten = text := by
    unfold sentenceSplitParts
    rw [sentenceSplitAux_join]
    simp
  have h2 : ((pairUp (sentenceSplitParts text)).map (fun pr => pr.1 ++ pr.2)).flatten = text := by
    rw [pairUp_join, h1]
  rw [← h2] at hc
  obtain ⟨x, hx, hcx⟩ := List.mem_flatten.mp hc
  obtain ⟨pr, hpr, hpx⟩ := List.mem_map.mp hx
  refine ⟨pr, hpr, ?_⟩
  rw [hpx]
  exact hcx

theorem lineFold_ne_nil (cfg : Config) (pids : List Nat) (level : Nat)
    (headers : List String) :
    ∀ lines buffer id,
      (∃ c, (c ∈ buffer ∨ ∃ l ∈ lines, c ∈ l) ∧ isStripChar c = false) →
      (lineFold cfg pids level headers lines buffer id).1 ≠ []
  | [], buffer, id, h => by
    obtain ⟨c, hc, hp⟩ := h
    have hbuf : c ∈ buffer := by
      rcases hc with h | ⟨l, hl, _⟩
      · exact h
      · exact absurd hl (List.not_mem_nil l)
    simp only [lineFold]
    rw [if_pos (List.ne_nil_of_mem hbuf)]
    exact addChunk_ne_nil ⟨c, mem_pyStrip hbuf hp, hp⟩
  | line :: rest, buffer, id, h => by
    have ih0 := lineFold_ne_nil cfg pids level headers rest
    obtain ⟨c, hc, hp⟩ := h
    simp only [lineFold]
    split
    · rcases hc with hbuf | ⟨l, hl, hmem⟩
      · have hne : buffer ≠ [] := List.ne_nil_of_mem hbuf
        rw [if_pos hne]
        have h1 : addChunk id pids level (pyStrip buffer) ChunkTypeTEXT headers [] ≠ [] :=
          addChunk_ne_nil ⟨c, mem_pyStrip hbuf hp, hp⟩
        split
        · intro heq
          rcases List.append_eq_nil.mp heq with ⟨heq1, _⟩
          rcases List.append_eq_nil.mp heq1 with ⟨heq2, _⟩
          exact h1 heq2
        · intro heq
          rcases List.append_eq_nil.mp heq with ⟨heq1, _⟩
          exact h1 heq1
      · rcases List.mem_cons.mp hl with hl1 | hl2
        · have hline : c ∈ line := by rw [hl1] at hmem; exact hmem
          split
          · intro heq
            rcases List.append_eq_nil.mp heq with ⟨heq1, _⟩
            rcases List.append_eq_nil.mp heq1 with ⟨_, heq3⟩
            exact handleSentenceSplitting_ne_nil cfg pids level headers line _ ⟨c, hline, hp⟩ heq3
          · intro heq
            rcases List.append_eq_nil.mp heq with ⟨_, heq2⟩
            exact ih0 line _ ⟨c, Or.inl hline, hp⟩ heq2
        · split
          · intro heq
            rcases List.append_eq_nil.mp heq with ⟨_, heq2⟩
            exact ih0 [] _ ⟨c, Or.inr ⟨l, hl2, hmem⟩, hp⟩ heq2
          · intro heq
            rcases List.append_eq_nil.mp heq with ⟨_, heq2⟩
            exact ih0 line _ ⟨c, Or.inr ⟨l, hl2, hmem⟩, hp⟩ heq2
    · refine ih0 (buffer ++ line) id ⟨c, ?_, hp⟩
      rcases hc with hbuf | ⟨l, hl, hmem⟩
      · exact Or.inl (List.mem_append_left _ hbuf)
      · rcases List.mem_cons.mp hl with hl1 | hl2
        · refine Or.inl (List.mem_append_right _ ?_)
          rw [hl1] at hmem
          exact hmem
        · exact Or.inr ⟨l, hl2, hmem⟩

theorem pyStrip_ne_nil_iff (l : List Char) :
    pyStrip l ≠ [] ↔ ∃ c ∈ l, isStripChar c = false := by
  constructor
  · intro h
    by_contra hno
    push_neg at hno
    have hall : ∀ c ∈ l, isStripChar c = true := by
      intro c hc
      have := hno c hc
      revert this
      cases isStripChar c <;> simp
    refine h ?_
    unfold pyStrip
    rw [List.dropWhile_eq_nil_iff.mpr hall]
    simp
  · exact pyStrip_ne_nil

theorem handleTextSplittingHierarchical_ne_nil (cfg : Config) (pids : List Nat)
    (level : Nat) (headers : List String) (text : List Char) (id : Nat)
    (h : pyStrip text ≠ []) :
    (handleTextSplittingHierarchical cfg pids level headers text id).1 ≠ [] := by
  obtain ⟨c, hc, hp⟩ := (pyStrip_ne_nil_iff text).mp h
  unfold handleTextSplittingHierarchical
  rw [if_neg h]
  split
  · exact addChunk_ne_nil ⟨c, mem_pyStrip hc hp, hp⟩
  · refine lineFold_ne_nil cfg pids level headers _ [] id ⟨c, Or.inr ?_, hp⟩
    have hj : (splitlinesKE text []).flatten = text := by
      rw [splitlinesKE_join]
      simp
    rw [← hj] at hc
    exact List.mem_flatten.mp hc


theorem sentenceSplitAux_noDelim :
    ∀ (text cur : List Char), (∀ c ∈ text, isSentenceDelim c = false) →
      sentenceSplitAux text cur = [cur.reverse ++ text]
  | [], cur, _ => by simp [sentenceSplitAux]
  | c :: rest, cur, h => by
    simp only [sentenceSplitAux]
    rw [if_neg (by simp [h c (List.mem_cons_self c rest)])]
    rw [sentenceSplitAux_noDelim rest (c :: cur) (fun x hx => h x (List.mem_cons_of_mem c hx))]
    simp

/-- The final-tier soft budget: a single clause (no sentence delimiter) longer
than the budget is emitted whole (trimmed) as one TEXT chunk. -/
theorem handleSentenceSplitting_single_clause (cfg : Config) (pids : List Nat)
    (level : Nat) (headers : List String) (text : List Char) (id : Nat)
    (hnd : ∀ c ∈ text, isSentenceDelim c = false)
    (hlen : cfg.max_segment_length < text.length)
    (hnw : ∃ c ∈ text, isStripChar c = false) :
    handleSentenceSplitting cfg pids level headers text id =
      ([⟨id, pids, level, ⟨pyStrip text⟩, ChunkTypeTEXT, headers, []⟩], id + 1) := by
  obtain ⟨c, hc, hp⟩ := hnw
  unfold handleSentenceSplitting sentenceSplitParts
  rw [sentenceSplitAux_noDelim text [] hnd]
  simp only [List.reverse_nil, List.nil_append]
  show sentenceFold cfg pids level headers [(text, [])] [] id = _
  have h0 : ¬(([] : List Char) ≠ []) := fun hx => hx rfl
  have haddc : addChunk id pids level (pyStrip text) ChunkTypeTEXT headers [] =
      [⟨id, pids, level, ⟨pyStrip text⟩, ChunkTypeTEXT, headers, []⟩] := by
    unfold addChunk
    rw [if_neg (fun hx => pyStrip_ne_nil ⟨c, mem_pyStrip hc hp, hp⟩ hx.2)]
  simp only [sentenceFold, List.append_nil, List.length_nil, Nat.zero_add]
  rw [if_pos hlen]
  rw [if_neg h0]
  rw [if_pos hlen]
  rw [haddc]
  simp

/-- C5: (i) a single sentence clause longer than the budget is emitted as-is
(trimmed, undivided) as one TEXT chunk; (ii) the hierarchical splitter emits
at least one chunk for every text whose trimmed content is non-empty (content
is never dropped entirely); (iii) concretely, the paragraph
`"A"*10 ++ " " ++ "B"*10` with `max_segment_length = 10` still yields one
chunk, carrying the whole paragraph. -/
theorem c5_soft_budget_never_drops :
    (∀ (cfg : Config) (pids : List Nat) (level : Nat) (headers : List String)
        (text : List Char) (id : Nat),
      (∀ c ∈ text, isSentenceDelim c = false) →
      cfg.max_segment_length < text.length →
      (∃ c ∈ text, isStripChar c = false) →
      handleSentenceSplitting cfg pids level headers text id =
        ([⟨id, pids, level, ⟨pyStrip text⟩, ChunkTypeTEXT, headers, []⟩], id + 1)) ∧
    (∀ (cfg : Config) (pids : List Nat) (level : Nat) (headers : List String)
        (text : List Char) (id : Nat), pyStrip text ≠ [] →
      (handleTextSplittingHierarchical cfg pids level headers text id).1 ≠ []) ∧
    split cfg10 toksAB ["AAAAAAAAAA BBBBBBBBBB"] 1 =
      ([⟨1, [], 0, "AAAAAAAAAA BBBBBBBBBB", "text", [], []⟩], 2) :=
  ⟨handleSentenceSplitting_single_clause, handleTextSplittingHierarchical_ne_nil, by decide⟩

/-- Witness for `c5_soft_budget_never_drops`: the 21-character clause
`"AAAAAAAAAA BBBBBBBBBB"` against budget 10, and a short text for the
never-empty property. -/
theorem c5_soft_budget_never_drops_witness :
    handleSentenceSplitting cfg10 [] 0 [] "AAAAAAAAAA BBBBBBBBBB".toList 1 =
      ([⟨1, [], 0, "AAAAAAAAAA BBBBBBBBBB", "text", [], []⟩], 2) ∧
    (handleTextSplittingHierarchical cfg10 [] 0 [] " hi ".toList 1).1 ≠ [] := by
  constructor
  · have h := c5_soft_budget_never_drops.1 cfg10 [] 0 [] "AAAAAAAAAA BBBBBBBBBB".toList 1
      (by decide) (by decide) (by decide)
    rw [h]
    decide
  · exact c5_soft_budget_never_drops.2.1 cfg10 [] 0 [] " hi ".toList 1 (by decide)


/-! ## Claim C4: duplicate-URL images -/

/-- C4 evidence: in `"![a](u) ![b](u)"` each structural image child rescans
the whole block for its URL `u` and matches both occurrences, and coincident
spans are re-emitted by the cursor walk, so the block yields four IMAGE
chunks (two per occurrence) instead of one per occurrence. -/
theorem c4_duplicate_url_double_emission :
    (split cfg500 toksDup ["![a](u) ![b](u)"] 1).1.map Chunk.ctype =
      ["image", "image", "image", "image"] ∧
    (split cfg500 toksDup ["![a](u) ![b](u)"] 1).1.map Chunk.meta =
      [[("url", "u"), ("alt", "a")], [("url", "u"), ("alt", "b")],
       [("url", "u"), ("alt", "a")], [("url", "u"), ("alt", "b")]] ∧
    sortSpans (withFallbackSpans "![a](u) ![b](u)".toList
        (structuralSpans "![a](u) ![b](u)".toList
          [⟨"inline", "", "![a](u) ![b](u)", some (0, 1),
            [⟨"image", "a", [("src", "u")]⟩, ⟨"image", "b", [("src", "u")]⟩]⟩])) =
      [⟨0, 7, "![a](u)".toList, "u".toList, "a".toList⟩,
       ⟨0, 7, "![a](u)".toList, "u".toList, "b".toList⟩,
       ⟨8, 15, "![b](u)".toList, "u".toList, "a".toList⟩,
       ⟨8, 15, "![b](u)".toList, "u".toList, "b".toList⟩] := by
  refine ⟨by decide, by decide, by decide⟩

/-! ## Claim C7: images with empty URLs -/

/-- C7 counterexample: `"See ![x]() here."` (structural image child with
`src=""`): the structural pass skips the image but the regex fallback matches
`![x]()` and an IMAGE chunk with an empty url IS emitted, contradicting the
claim that no IMAGE chunk appears. -/
theorem c7_counterexample :
    (split cfg500 toksEmptyUrl ["See ![x]() here."] 1).1.countP
      (fun c => c.ctype == ChunkTypeIMAGE) = 1 ∧
    ((split cfg500 toksEmptyUrl ["See ![x]() here."] 1).1.getD 1 dummyChunk).meta =
      [("url", ""), ("alt", "x")] := by
  refine ⟨by decide, by decide⟩

theorem structuralSpans_inner_empty (blockText : List Char) :
    ∀ (children : List InlineChild) (acc : List Span),
      (∀ ch ∈ children, ch.ctype = "image" → attrsGet ch.attrs "src" = "") →
      children.foldl (fun acc2 child =>
        if child.ctype = "image" then
          let src := (attrsGet child.attrs "src").toList
          if src = [] then acc2
          else acc2 ++ scanUrlLoop blockText src child.content.toList (blockText.length + 1) 0
        else acc2) acc = acc
  | [], acc, _ => rfl
  | ch :: rest, acc, h => by
    simp only [List.foldl]
    have hstep : (if ch.ctype = "image" then
        (let src := (attrsGet ch.attrs "src").toList
         if src = [] then acc
         else acc ++ scanUrlLoop blockText src ch.content.toList (blockText.length + 1) 0)
      else acc) = acc := by
      split
      · rename_i hct
        rw [h ch (List.mem_cons_self ch rest) hct]
        rfl
      · rfl
    rw [hstep]
    exact structuralSpans_inner_empty blockText rest acc
      (fun x hx => h x (List.mem_cons_of_mem ch hx))

theorem structuralSpans_empty_src (blockText : List Char) :
    ∀ (l : List Token) (acc : List Span),
      (∀ t ∈ l, ∀ ch ∈ t.children, ch.ctype = "image" → attrsGet ch.attrs "src" = "") →
      l.foldl (fun acc t =>
        if t.children = [] then acc
        else t.children.foldl (fun acc2 child =>
          if child.ctype = "image" then
            let src := (attrsGet child.attrs "src").toList
            if src = [] then acc2
            else acc2 ++ scanUrlLoop blockText src child.content.toList (blockText.length + 1) 0
          else acc2) acc) acc = acc
  | [], acc, _ => rfl
  | t :: rest, acc, h => by
    simp only [List.foldl]
    have hstep : (if t.children = [] then acc
        else t.children.foldl (fun acc2 child =>
          if child.ctype = "image" then
            let src := (attrsGet child.attrs "src").toList
            if src = [] then acc2
            else acc2 ++ scanUrlLoop blockText src child.content.toList (blockText.length + 1) 0
          else acc2) acc) = acc := by
      split
      · rfl
      · exact structuralSpans_inner_empty blockText t.children acc
          (h t (List.mem_cons_self t rest))
    rw [hstep]
    exact structuralSpans_empty_src blockText rest acc
      (fun x hx => h x (List.mem_cons_of_mem t hx))

/-- C7 (amended): an image reference with an empty URL is skipped by the
structural pass (it contributes no span), but the regex fallback still
matches a well-formed `![alt]()` occurrence and emits an IMAGE chunk whose
`meta.url` is empty; the surrounding text is captured as prose either way. -/
theorem c7_empty_url_amended :
    (∀ (blockText : List Char) (inlineTokens : List Token),
      (∀ t ∈ inlineTokens, ∀ ch ∈ t.children, ch.ctype = "image" → attrsGet ch.attrs "src" = "") →
      structuralSpans blockText inlineTokens = []) ∧
    split cfg500 toksEmptyUrl ["See ![x]() here."] 1 =
      ([⟨1, [], 0, "See", "text", [], []⟩,
        ⟨2, [], 0, "![x]()", "image", [], [("url", ""), ("alt", "x")]⟩,
        ⟨3, [], 0, "here.", "text", [], []⟩], 4) := by
  constructor
  · intro blockText inlineTokens h
    exact structuralSpans_empty_src blockText inlineTokens [] h
  · decide

/-- Witness for `c7_empty_url_amended` on a one-token list. -/
theorem c7_empty_url_amended_witness :
    structuralSpans "See ![x]() here.".toList
      [⟨"inline", "", "See ![x]() here.", none, [⟨"image", "x", [("src", "")]⟩]⟩] = [] :=
  c7_empty_url_amended.1 "See ![x]() here.".toList
    [⟨"inline", "", "See ![x]() here.", none, [⟨"image", "x", [("src", "")]⟩]⟩] (by decide)

/-! ## Claim C8: malformed nesting -/

/-- C8 counterexample: a `table_open` whose `table_close` never appears.  The
engine has no failure path: `_find_closing_token_index` falls back to the
opening index and the run completes normally with best-effort output (one
TABLE chunk), instead of raising or returning a terminal error. -/
theorem c8_counterexample :
    split cfg500 toksMalformed [] 1 = ([⟨1, [], 0, "<table markdown>", "table", [], []⟩], 2) := by
  decide

theorem findCloseAux_none (ot ct : String) :
    ∀ (l : List Token) (nesting j : Nat), 1 ≤ nesting → (∀ t ∈ l, t.ttype ≠ ct) →
      findCloseAux ot ct l nesting j = none
  | [], _, _, _, _ => rfl
  | t :: rest, nesting, j, hn, hl => by
    simp only [findCloseAux]
    have hne := hl t (List.mem_cons_self t rest)
    have h1 : 1 ≤ (if t.ttype = ot then nesting + 1
        else if t.ttype = ct then nesting - 1 else nesting) := by
      split_ifs with h2
      · omega
      · exact hn
    rw [if_neg (by omega)]
    exact findCloseAux_none ot ct rest _ (j + 1) h1
      (fun x hx => hl x (List.mem_cons_of_mem t hx))

/-- C8 (amended): malformed nesting does not raise: when the matching close
token never occurs after the opening token, `_find_closing_token_index`
returns the opening token's own index and the walk continues, completing with
best-effort output (the malformed table document still yields its one TABLE
chunk and the run terminates normally). -/
theorem c8_no_error_amended :
    (∀ (tokens : List Token) (i : Nat) (closeType : String),
      (∀ t ∈ tokens.drop (i + 1), t.ttype ≠ closeType) →
      findClosingTokenIndex tokens i closeType = i) ∧
    (split cfg500 toksMalformed [] 1).1.length = 1 ∧
    (split cfg500 toksMalformed [] 1).2 = 2 := by
  refine ⟨?_, by decide, by decide⟩
  intro tokens i closeType h
  have hnone := findCloseAux_none (pyReplace closeType "_close" "_open") closeType
    (tokens.drop (i + 1)) 1 (i + 1) (Nat.le_refl 1) h
  simp only [findClosingTokenIndex]
  rw [hnone]

/-- Witness for `c8_no_error_amended` at the malformed table document. -/
theorem c8_no_error_amended_witness :
    findClosingTokenIndex toksMalformed 0 "table_close" = 0 :=
  c8_no_error_amended.1 toksMalformed 0 "table_close" (by decide)

/-! ## Claim C9: missing source mapping -/

/-- C9 counterexample: a depth-2 heading with no source mapping produces the
header content `"## T"` (with a space inserted between the hashes and the
inline text), not the claim's `'#' * depth + inline_text = "##T"`. -/
theorem c9_counterexample :
    (split cfg500 toksH2NoMap [] 1).1.map Chunk.content = ["## T"] ∧
    ("## T" : String) ≠ "##" ++ "T" := by
  refine ⟨by decide, by decide⟩

/-- C9 (amended): a missing source mapping never aborts segmentation; the
heading is reconstructed as `'#' * depth + ' ' + inline_text`, a fence or
code block falls back to the token's own content, and a table falls back to
the constant placeholder `"<table markdown>"`. -/
theorem c9_missing_map_amended :
    (∀ (c : String) (id0 : Nat),
      split cfg500 [⟨"heading_open", "h2", "", none, []⟩, ⟨"inline", "", c, none, []⟩,
          ⟨"heading_close", "h2", "", none, []⟩] [] id0 =
        ([⟨id0, [], 2, "## " ++ c, "header", [], []⟩], id0 + 1)) ∧
    (∀ (cnt : String) (id0 : Nat),
      split cfg500 [⟨"fence", "code", cnt, none, []⟩] [] id0 =
        ([⟨id0, [], 0, cnt, "code", [], []⟩], id0 + 1)) ∧
    split cfg500 [⟨"table_open", "table", "", none, []⟩, ⟨"table_close", "table", "", none, []⟩] [] 1 =
      ([⟨1, [], 0, "<table markdown>", "table", [], []⟩], 2) := by
  refine ⟨fun c id0 => rfl, fun cnt id0 => rfl, by decide⟩


/-- Witness for `c9_missing_map_amended` at inline text `"T"` and counter 1. -/
theorem c9_missing_map_amended_witness :
    split cfg500 [⟨"heading_open", "h2", "", none, []⟩, ⟨"inline", "", "T", none, []⟩,
        ⟨"heading_close", "h2", "", none, []⟩] [] 1 =
      ([⟨1, [], 2, "## " ++ "T", "header", [], []⟩], 1 + 1) :=
  c9_missing_map_amended.1 "T" 1

end HeadingSegmenter
